import Mathlib

/-!
Verification development for the membership-reconciliation core of
google-workspace-github-sync.

The Go sources are shallowly embedded:
* Go maps are association lists with first-key-wins lookup and
  replace-in-place insertion (`mapFind?` / `mapInsert`), so keys stay
  distinct and iteration visits each key once, as in Go.
* Go string types (`OrgRole`, `ActionType`, `InvitationStatus`) stay
  strings, with the source's named constants.
* `time.Time` is modelled as seconds (`Nat`); `AddDate(0,0,d)` becomes
  `d * 86400` seconds.
* Fallible collaborator calls (DynamoDB store, GitHub client) are driven
  by explicit failure oracles / `Except` responses, and the error payload
  text is abstracted to `"error"`.
-/

set_option linter.unusedVariables false

/-- Association-list lookup, first match wins. -/
def mapFind? {β : Type} : List (String × β) → String → Option β
  | [], _ => none
  | p :: rest, k => if p.1 = k then some p.2 else mapFind? rest k

/-- Association-list insertion: replaces the first binding in place, else appends. -/
def mapInsert {β : Type} : List (String × β) → String → β → List (String × β)
  | [], k, v => [(k, v)]
  | p :: rest, k, v => if p.1 = k then (k, v) :: rest else p :: mapInsert rest k v

/-- Set insertion for the string sets of the Go code (`map[string]struct\x7b\x7d`). -/
def setIns (s : List String) (k : String) : List String :=
  if s.contains k then s else s ++ [k]

/-- `strings.ToLower`, written on the character list so that it evaluates in
the kernel (agrees with `String.toLower` on the ASCII data the code handles). -/
def strLower (s : String) : String :=
  ⟨s.data.map Char.toLower⟩

/-- Go `strings.EqualFold`, restricted to the ASCII case-folding the code relies on. -/
def equalFold (a b : String) : Bool :=
  strLower a == strLower b

/-- `models.OrgRole` is a Go string type. -/
abbrev OrgRole := String

def RoleMember : OrgRole := "member"

def RoleOwner : OrgRole := "admin"

/-- `models.ActionType` is a Go string type. -/
abbrev ActionType := String

def ActionInvite : ActionType := "invite"

def ActionRemove : ActionType := "remove"

def ActionUpdateRole : ActionType := "update_role"

def ActionCancelInvite : ActionType := "cancel_invite"

def ActionSkip : ActionType := "skip"

/-- `models.InvitationStatus` is a Go string type. -/
abbrev InvitationStatus := String

def InvitationPending : InvitationStatus := "pending"

def InvitationResolved : InvitationStatus := "resolved"

def InvitationFailed : InvitationStatus := "failed"

def InvitationExpired : InvitationStatus := "expired"

def InvitationCancelled : InvitationStatus := "cancelled"

def InvitationRemoved : InvitationStatus := "removed"

/-- `models.GoogleGroupMember`. -/
structure GoogleGroupMember where
  email : String
  role : String := ""
  type : String := ""
  status : String := ""
  isSuspended : Bool := false
deriving Repr, DecidableEq

/-- `GoogleGroupMember.IsActive`. -/
def GoogleGroupMember.IsActive (m : GoogleGroupMember) : Bool :=
  m.type == "USER" && m.status == "ACTIVE" && !m.isSuspended

/-- `models.GitHubOrgMember`. Pointers become `Option`. -/
structure GitHubOrgMember where
  username : Option String := none
  email : Option String := none
  role : OrgRole := ""
  isPending : Bool := false
  invitationID : Option Int := none
deriving Repr, DecidableEq

/-- `GitHubOrgMember.Identifier`: email if present and non-empty, else username, else `""`. -/
def GitHubOrgMember.Identifier (m : GitHubOrgMember) : String :=
  match m.email with
  | some e => if e ≠ "" then e else m.username.getD ""
  | none => m.username.getD ""

/-- `models.SyncAction`. `Timestamp` is seconds (`Nat`). -/
structure SyncAction where
  type : ActionType
  email : String := ""
  googleEmail : String := ""
  username : String := ""
  currentRole : Option OrgRole := none
  targetRole : Option OrgRole := none
  reason : String := ""
  executed : Bool := false
  alreadyInOrg : Bool := false
  error : Option String := none
  timestamp : Option Nat := none
  invitationID : Option Int := none
deriving Repr, DecidableEq

/-- `sync.EmailMappings`. -/
structure EmailMappings where
  resolved : List (String × String)
  pendingInvitations : List (String × Int)
deriving Repr, DecidableEq

/-! ### CalculateDiff (sync/diff.go)

The source builds several maps, then emits invite, remove, cancel and
role-change action blocks in order.  Each block is a top-level definition
here, and `CalculateDiff` concatenates them. -/

/-- Known-identifier set from GitHub members and pending invites. -/
def knownBase (githubMembers pendingInvites : List GitHubOrgMember) : List String :=
  let k := githubMembers.foldl
    (fun s m =>
      let id := strLower m.Identifier
      if id ≠ "" then setIns s id else s) []
  pendingInvites.foldl
    (fun s m =>
      let id := strLower m.Identifier
      if id ≠ "" then setIns s id else s) k

/-- `ghByUsername`: lowercase username → member. -/
def ghByUsernameFor (githubMembers : List GitHubOrgMember) : List (String × GitHubOrgMember) :=
  githubMembers.foldl
    (fun mp m =>
      match m.username with
      | some u => mapInsert mp (strLower u) m
      | none => mp) []

/-- One step of the DynamoDB resolved-mapping loop: extends
`resolvedUserByEmail`, `emailByResolvedUser` and `known`. -/
def dynamoStep (ghByUsername : List (String × GitHubOrgMember))
    (acc : List (String × String) × List (String × String) × List String)
    (p : String × String) :
    List (String × String) × List (String × String) × List String :=
  let lowerEmail := strLower p.1
  let lowerUser := strLower p.2
  let rbe := mapInsert acc.1 lowerEmail p.2
  let ebr := mapInsert acc.2.1 lowerUser lowerEmail
  let kn :=
    if acc.2.2.contains lowerEmail then acc.2.2
    else if (mapFind? ghByUsername lowerUser).isSome then setIns acc.2.2 lowerEmail
    else acc.2.2
  (rbe, ebr, kn)

/-- One step of the verified-domain-email loop: only admits the hint when
DynamoDB has not already covered the email. -/
def verifiedStep (ghByUsername : List (String × GitHubOrgMember))
    (acc : List (String × String) × List (String × String) × List String)
    (p : String × String) :
    List (String × String) × List (String × String) × List String :=
  let lowerEmail := strLower p.1
  let lowerUser := strLower p.2
  let (rbe, ebr) :=
    if (mapFind? acc.1 lowerEmail).isSome then (acc.1, acc.2.1)
    else (mapInsert acc.1 lowerEmail p.2, mapInsert acc.2.1 lowerUser lowerEmail)
  let kn :=
    if acc.2.2.contains lowerEmail then acc.2.2
    else if (mapFind? ghByUsername lowerUser).isSome then setIns acc.2.2 lowerEmail
    else acc.2.2
  (rbe, ebr, kn)

/-- The lookup maps of `CalculateDiff`:
`(resolvedUserByEmail, emailByResolvedUser, known)` after folding the
DynamoDB mappings and the verified-domain emails. -/
def diffLookups (emailMappings : Option EmailMappings)
    (verifiedEmails : Option (List (String × String)))
    (ghByUsername : List (String × GitHubOrgMember)) (known : List String) :
    List (String × String) × List (String × String) × List String :=
  let acc :=
    match emailMappings with
    | none => (([] : List (String × String)), ([] : List (String × String)), known)
    | some em => em.resolved.foldl (dynamoStep ghByUsername) ([], [], known)
  match verifiedEmails with
  | none => acc
  | some ve => ve.foldl (verifiedStep ghByUsername) acc

/-- Desired state `roleByEmail`: lowercase email → (original email, role).
Members first, then owners, so owners overwrite. -/
def roleByEmailFor (membersGroup ownersGroup : List GoogleGroupMember) :
    List (String × (String × OrgRole)) :=
  let mp := membersGroup.foldl
    (fun mp m =>
      if m.IsActive then mapInsert mp (strLower m.email) (m.email, RoleMember) else mp) []
  ownersGroup.foldl
    (fun mp o =>
      if o.IsActive then mapInsert mp (strLower o.email) (o.email, RoleOwner) else mp) mp

/-- Invite actions: every desired email not in the known set. -/
def inviteActionsFor (roleByEmail : List (String × (String × OrgRole)))
    (known : List String) : List SyncAction :=
  roleByEmail.foldl
    (fun acc kv =>
      if known.contains kv.1 then acc
      else acc ++ [{ type := ActionInvite, email := kv.2.1, targetRole := some kv.2.2,
                     reason := "missing in GitHub organization" }]) []

/-- `googleSet`: the set of desired lowercase emails. -/
def googleSetFor (roleByEmail : List (String × (String × OrgRole))) : List String :=
  roleByEmail.map Prod.fst

/-- Remove actions: aggressive mode removes every GitHub member absent from
desired state; conservative mode (when mappings are present) removes members
with a reverse lookup in `emailByResolvedUser` whose email left desired state. -/
def removeActionsFor (githubMembers : List GitHubOrgMember) (removeExtraMembers : Bool)
    (emailMappings : Option EmailMappings)
    (emailByResolvedUser : List (String × String)) (googleSet : List String) :
    List SyncAction :=
  if removeExtraMembers then
    githubMembers.foldl
      (fun acc member =>
        match member.username with
        | none => acc
        | some uname =>
          if member.isPending then acc
          else
            let identifier := strLower member.Identifier
            let username := strLower uname
            if identifier ≠ "" ∧ googleSet.contains identifier then acc
            else if (mapFind? emailByResolvedUser username).elim false
                (fun email => googleSet.contains email) then acc
            else
              let googleEmail := (mapFind? emailByResolvedUser username).getD ""
              acc ++ [{ type := ActionRemove, email := uname, googleEmail := googleEmail,
                        reason := "missing from Google groups" }]) []
  else
    match emailMappings with
    | none => []
    | some _ =>
      githubMembers.foldl
        (fun acc member =>
          match member.username with
          | none => acc
          | some uname =>
            if member.isPending then acc
            else
              let username := strLower uname
              match mapFind? emailByResolvedUser username with
              | none => acc
              | some googleEmail =>
                if googleSet.contains googleEmail then acc
                else
                  acc ++ [{ type := ActionRemove, email := uname,
                            googleEmail := googleEmail,
                            reason := "removed from Google groups (tracked via DynamoDB)" }])
        []

/-- Cancel actions: live pending invites no longer desired, then DynamoDB
pending hints no longer desired and not already covered by a live invitation id. -/
def cancelActionsFor (pendingInvites : List GitHubOrgMember)
    (emailMappings : Option EmailMappings) (googleSet : List String) : List SyncAction :=
  match emailMappings with
  | none => []
  | some em =>
    let live := pendingInvites.filterMap
      (fun invite =>
        match invite.email, invite.invitationID with
        | some e, some invID =>
          if e = "" then none
          else if googleSet.contains (strLower e) then none
          else
            some { type := ActionCancelInvite, email := e, invitationID := some invID,
                   reason := "removed from Google groups, cancelling pending invitation" }
        | _, _ => none)
    live ++ em.pendingInvitations.filterMap
      (fun p =>
        if googleSet.contains (strLower p.1) then none
        else if pendingInvites.any (fun invite => invite.invitationID == some p.2) then none
        else
          some { type := ActionCancelInvite, email := p.1, invitationID := some p.2,
                 reason := "removed from Google groups, cancelling pending invitation" })

/-- Role-change actions: direct email match, else DynamoDB reverse lookup. -/
def roleChangeActionsFor (githubMembers : List GitHubOrgMember)
    (roleByEmail : List (String × (String × OrgRole)))
    (emailByResolvedUser : List (String × String)) : List SyncAction :=
  githubMembers.foldl
    (fun acc member =>
      match member.username with
      | none => acc
      | some uname =>
        if member.isPending then acc
        else
          let identifier := strLower member.Identifier
          let username := strLower uname
          let desired? :=
            match mapFind? roleByEmail identifier with
            | some d => some d
            | none =>
              match mapFind? emailByResolvedUser username with
              | some email => mapFind? roleByEmail email
              | none => none
          match desired? with
          | none => acc
          | some desired =>
            if member.role == desired.2 then acc
            else
              let googleEmail := (mapFind? emailByResolvedUser username).getD ""
              acc ++ [{ type := ActionUpdateRole, email := uname, googleEmail := googleEmail,
                        currentRole := some member.role, targetRole := some desired.2,
                        reason := "role mismatch" }]) []

/-- `sync.CalculateDiff`. -/
def CalculateDiff (membersGroup ownersGroup : List GoogleGroupMember)
    (githubMembers pendingInvites : List GitHubOrgMember)
    (removeExtraMembers : Bool) (emailMappings : Option EmailMappings)
    (verifiedEmails : Option (List (String × String))) : List SyncAction :=
  let known0 := knownBase githubMembers pendingInvites
  let ghByUsername := ghByUsernameFor githubMembers
  let lk := diffLookups emailMappings verifiedEmails ghByUsername known0
  let emailByResolvedUser := lk.2.1
  let known := lk.2.2
  let roleByEmail := roleByEmailFor membersGroup ownersGroup
  let googleSet := googleSetFor roleByEmail
  inviteActionsFor roleByEmail known
    ++ removeActionsFor githubMembers removeExtraMembers emailMappings emailByResolvedUser googleSet
    ++ cancelActionsFor pendingInvites emailMappings googleSet
    ++ roleChangeActionsFor githubMembers roleByEmail emailByResolvedUser

/-! ### ExecuteActions (sync/actions.go)

The GitHub client is a structure of response functions; executing actions
also produces the trace of directory calls that were issued, so the
dry-run frame property is expressible. -/

/-- Outcome of `CreateInvitation`: success carries the returned member
(`none` models a nil member) with its invitation id; `already` is
`github.ErrAlreadyMember`; `fail` is any other error. -/
inductive InviteOutcome where
  | ok (invResult : Option (Option Int))
  | already
  | fail (msg : String)
deriving Repr, DecidableEq

/-- The target-directory collaborator as consumed by `ExecuteActions`.
`searchUserByEmail` yields the username, `""` for zero or ambiguous
matches, or a transport error; the mutating calls yield `some msg` on error. -/
structure GitHubClientM where
  createInvitation : String → String → OrgRole → InviteOutcome
  searchUserByEmail : String → Except String String
  updateMemberRole : String → String → OrgRole → Option String
  removeMember : String → String → Option String
  cancelInvitation : String → Int → Option String

/-- A directory call issued by the executor. -/
inductive GHCall where
  | createInvitation (org email : String) (role : OrgRole)
  | searchUserByEmail (email : String)
  | updateMemberRole (org username : String) (role : OrgRole)
  | removeMember (org username : String)
  | cancelInvitation (org : String) (invitationID : Int)
deriving Repr, DecidableEq

/-- `github.ErrAlreadyMember.Error()`. -/
def errAlreadyMemberMsg (email : String) : String :=
  "user " ++ email ++ " is already a member of the organization"

/-- One iteration of the `ExecuteActions` loop: the updated action and the
directory calls it issued. -/
def execOneAction (client : GitHubClientM) (org : String) (now : Nat) (dryRun : Bool)
    (a : SyncAction) : SyncAction × List GHCall :=
  if dryRun then ({ a with executed := false }, [])
  else if a.type == ActionInvite then
    match a.targetRole with
    | none => ({ a with error := some "target role is required" }, [])
    | some role =>
      match client.createInvitation org a.email role with
      | .ok invResult =>
        let a := { a with executed := true }
        let a :=
          match invResult with
          | some iid => { a with invitationID := iid }
          | none => a
        ({ a with timestamp := some now }, [.createInvitation org a.email role])
      | .already =>
        let a := { a with alreadyInOrg := true }
        let username :=
          match client.searchUserByEmail a.email with
          | .ok u => u
          | .error _ => ""
        if username != "" then
          match client.updateMemberRole org username role with
          | some roleErr =>
            ({ a with error := some roleErr },
             [.createInvitation org a.email role, .searchUserByEmail a.email,
              .updateMemberRole org username role])
          | none =>
            ({ a with type := ActionUpdateRole, executed := true, alreadyInOrg := true,
                      username := username, googleEmail := a.email,
                      reason := "invite upgraded: user already in org, role updated",
                      timestamp := some now },
             [.createInvitation org a.email role, .searchUserByEmail a.email,
              .updateMemberRole org username role])
        else
          ({ a with error := some (errAlreadyMemberMsg a.email), executed := false },
           [.createInvitation org a.email role, .searchUserByEmail a.email])
      | .fail msg =>
        ({ a with error := some msg }, [.createInvitation org a.email role])
  else if a.type == ActionRemove then
    match client.removeMember org a.email with
    | some msg => ({ a with error := some msg }, [.removeMember org a.email])
    | none => ({ a with executed := true, timestamp := some now }, [.removeMember org a.email])
  else if a.type == ActionUpdateRole then
    match a.targetRole with
    | none => ({ a with error := some "target role is required" }, [])
    | some role =>
      match client.updateMemberRole org a.email role with
      | some msg => ({ a with error := some msg }, [.updateMemberRole org a.email role])
      | none =>
        ({ a with executed := true, timestamp := some now }, [.updateMemberRole org a.email role])
  else if a.type == ActionCancelInvite then
    match a.invitationID with
    | none => ({ a with error := some "invitation ID is required for cancel" }, [])
    | some invID =>
      match client.cancelInvitation org invID with
      | some msg => ({ a with error := some msg }, [.cancelInvitation org invID])
      | none =>
        ({ a with executed := true, timestamp := some now }, [.cancelInvitation org invID])
  else (a, [])

/-- `sync.ExecuteActions`: the updated action list and the full call trace. -/
def ExecuteActions (client : GitHubClientM) (org : String) (actions : List SyncAction)
    (dryRun : Bool) (now : Nat) : List SyncAction × List GHCall :=
  match actions with
  | [] => ([], [])
  | a :: rest =>
    let (a', calls) := execOneAction client org now dryRun a
    let (rest', calls') := ExecuteActions client org rest dryRun now
    (a' :: rest', calls ++ calls')

/-! ### The Reconciler (sync/reconciler.go) and its DynamoDB store

Store records live in an association list keyed by `(pk, sk)`.  DynamoDB
semantics are kept: `PutItem` overwrites, `UpdateItem` upserts (creating a
blank item when the key is absent), and the GSI queries filter on the
`gsi*` attributes that the write operations maintain.  Each fallible store
call consults a failure oracle. -/

/-- `models.AuditLogEntry`. -/
structure AuditLogEntry where
  timestamp : Int
  action : String := ""
  actor : String := ""
  user : String
  org : String := ""
  invitationID : Int := 0
deriving Repr, DecidableEq

/-- `models.AuditLogCursor` (`LastRun` in seconds). -/
structure AuditLogCursor where
  pk : String
  sk : String
  lastTimestamp : Int
  lastRun : Nat
deriving Repr, DecidableEq

/-- `models.InvitationMapping` (times in seconds). -/
structure InvitationMapping where
  pk : String
  sk : String
  email : String
  githubLogin : Option String := none
  status : InvitationStatus
  role : OrgRole
  invitedAt : Nat
  resolvedAt : Option Nat := none
  ttl : Int
  gsi1pk : String
  gsi1sk : String
  gsi2pk : String
  gsi2sk : String
deriving Repr, DecidableEq

/-- `models.ReconcileResult`. -/
structure ReconcileResult where
  newInvitationsSaved : Nat := 0
  resolved : Nat := 0
  failed : Nat := 0
  expired : Nat := 0
  cancelled : Nat := 0
  membersRemoved : Nat := 0
  rolesUpdated : Nat := 0
  alreadyInOrgResolved : Nat := 0
  verifiedEmailsMapped : Nat := 0
  errors : List String := []
deriving Repr, DecidableEq

/-- The persisted store: invitation records plus the audit-log cursor item. -/
structure StoreState where
  records : List InvitationMapping
  cursor : Option AuditLogCursor := none
deriving Repr, DecidableEq

/-- `INV#<invitationID>` sort key. -/
def invSK (invitationID : Int) : String :=
  "INV#" ++ toString invitationID

/-- Primary-key lookup. -/
def recFind : List InvitationMapping → String → String → Option InvitationMapping
  | [], _, _ => none
  | r :: rest, pk, sk => if r.pk == pk && r.sk == sk then some r else recFind rest pk sk

/-- `PutItem`: overwrite the record with the same key, else append. -/
def recPut : List InvitationMapping → InvitationMapping → List InvitationMapping
  | [], m => [m]
  | r :: rest, m => if r.pk == m.pk && r.sk == m.sk then m :: rest else r :: recPut rest m

/-- The blank item a DynamoDB `UpdateItem` creates when the key is absent. -/
def blankMapping (pk sk : String) : InvitationMapping :=
  { pk := pk, sk := sk, email := "", githubLogin := none, status := "", role := "",
    invitedAt := 0, resolvedAt := none, ttl := 0,
    gsi1pk := "", gsi1sk := "", gsi2pk := "", gsi2sk := "" }

/-- `UpdateItem`: apply `f` to the existing record, or to a blank item. -/
def recUpsert (recs : List InvitationMapping) (pk sk : String)
    (f : InvitationMapping → InvitationMapping) : List InvitationMapping :=
  match recFind recs pk sk with
  | some r => recPut recs (f r)
  | none => recs ++ [f (blankMapping pk sk)]

/-- `Store.GetInvitation`. -/
def storeGetInvitation (recs : List InvitationMapping) (org : String) (invID : Int) :
    Option InvitationMapping :=
  recFind recs ("ORG#" ++ org) (invSK invID)

/-- `Store.GetPendingInvitations` (status-index query). -/
def storeGetPending (recs : List InvitationMapping) (org : String) : List InvitationMapping :=
  recs.filter (fun m => m.gsi2pk == "ORG#" ++ org && m.gsi2sk == "STATUS#" ++ InvitationPending)

/-- `Store.GetByEmail` (email-index query). -/
def storeGetByEmail (recs : List InvitationMapping) (email org : String) :
    List InvitationMapping :=
  recs.filter (fun m => m.gsi1pk == "EMAIL#" ++ email && m.gsi1sk == "ORG#" ++ org)

/-- `Store.ResolveInvitation`. -/
def storeResolve (recs : List InvitationMapping) (org : String) (invID : Int)
    (githubLogin : String) (ttlDays now : Nat) : List InvitationMapping :=
  recUpsert recs ("ORG#" ++ org) (invSK invID) (fun r =>
    { r with githubLogin := some githubLogin, status := InvitationResolved,
             resolvedAt := some now, gsi2sk := "STATUS#" ++ InvitationResolved,
             ttl := Int.ofNat (now + ttlDays * 86400) })

/-- `Store.UpdateStatus`. -/
def storeUpdateStatus (recs : List InvitationMapping) (org : String) (invID : Int)
    (status : InvitationStatus) : List InvitationMapping :=
  recUpsert recs ("ORG#" ++ org) (invSK invID) (fun r =>
    { r with status := status, gsi2sk := "STATUS#" ++ status })

/-- `Store.UpdateRole`. -/
def storeUpdateRole (recs : List InvitationMapping) (org : String) (invID : Int)
    (role : OrgRole) : List InvitationMapping :=
  recUpsert recs ("ORG#" ++ org) (invSK invID) (fun r => { r with role := role })

/-- `models.NewInvitationMapping`. -/
def NewInvitationMapping (org : String) (invitationID : Int) (email : String)
    (role : OrgRole) (ttlDays now : Nat) : InvitationMapping :=
  { pk := "ORG#" ++ org, sk := invSK invitationID, email := email, githubLogin := none,
    status := InvitationPending, role := role, invitedAt := now, resolvedAt := none,
    ttl := Int.ofNat (now + ttlDays * 86400),
    gsi1pk := "EMAIL#" ++ email, gsi1sk := "ORG#" ++ org,
    gsi2pk := "ORG#" ++ org, gsi2sk := "STATUS#" ++ InvitationPending }

/-- Failure oracle for the store collaborator: `true` means that call errors. -/
structure StoreFailures where
  save : InvitationMapping → Bool := fun _ => false
  get : Int → Bool := fun _ => false
  getPending : Bool := false
  resolve : Int → Bool := fun _ => false
  updStatus : Int → Bool := fun _ => false
  updRole : Int → Bool := fun _ => false
  getByEmail : String → Bool := fun _ => false
  getCursor : Bool := false
  saveCursor : Bool := false

/-- The always-successful store. -/
def noFailures : StoreFailures := {}

/-- GitHub-client responses consumed by the reconciler.  The audit-log
endpoint filters server-side: only events strictly after the requested
timestamp are returned (client drops `raw.Timestamp <= afterTimestamp`). -/
structure ReconClient where
  pendingInvites : Except String (List GitHubOrgMember) := .ok []
  auditAll : List AuditLogEntry := []
  auditFails : Bool := false
  failedInvites : Except String (List GitHubOrgMember) := .ok []

/-- `GetAuditLogAddMemberEvents`. -/
def ReconClient.auditEvents (c : ReconClient) (afterTimestamp : Int) :
    Except String (List AuditLogEntry) :=
  if c.auditFails then .error "error"
  else .ok (c.auditAll.filter (fun e => afterTimestamp < e.timestamp))

/-- `Reconciler.resolveRole`. -/
def resolveRole (action : SyncAction) : OrgRole :=
  action.targetRole.getD RoleMember

/-- `mypkg.Config` slice the reconciler reads. -/
structure ReconCfg where
  organization : String
  ttlDays : Nat

/-- Step 1: `saveNewInvitations`. -/
def saveNewInvitations (sf : StoreFailures) (org : String) (ttlDays now : Nat) :
    List SyncAction → StoreState → StoreState × Nat × List String
  | [], s => (s, 0, [])
  | action :: rest, s =>
    match action.invitationID with
    | none => saveNewInvitations sf org ttlDays now rest s
    | some invID =>
      if action.type != ActionInvite || !action.executed then
        saveNewInvitations sf org ttlDays now rest s
      else
        let mapping := NewInvitationMapping org invID action.email (resolveRole action) ttlDays now
        if sf.save mapping then
          let (s', n, errs) := saveNewInvitations sf org ttlDays now rest s
          (s', n, ("saving invitation for " ++ action.email ++ ": error") :: errs)
        else
          let (s', n, errs) := saveNewInvitations sf org ttlDays now rest
            { s with records := recPut s.records mapping }
          (s', n + 1, errs)

/-- Step 1b: `markCancelledInvitations`. -/
def markCancelledInvitations (sf : StoreFailures) (org : String) :
    List SyncAction → StoreState → StoreState × Nat × List String
  | [], s => (s, 0, [])
  | action :: rest, s =>
    match action.invitationID with
    | none => markCancelledInvitations sf org rest s
    | some invID =>
      if action.type != ActionCancelInvite || !action.executed then
        markCancelledInvitations sf org rest s
      else if sf.updStatus invID then
        let (s', n, errs) := markCancelledInvitations sf org rest s
        (s', n, ("marking invitation " ++ toString invID ++ " as cancelled: error") :: errs)
      else
        let (s', n, errs) := markCancelledInvitations sf org rest
          { s with records := storeUpdateStatus s.records org invID InvitationCancelled }
        (s', n + 1, errs)

/-- Decimal value of a digit list. -/
def digitsToNat (l : List Char) : Nat :=
  l.foldl (fun n c => n * 10 + (c.toNat - 48)) 0

/-- `fmt.Sscanf` of a leading `%d` (sign, then one or more digits). -/
def scanLeadingInt (s : String) : Option Int :=
  if ("-").data.isPrefixOf s.data then
    let digits := (s.data.drop 1).takeWhile Char.isDigit
    if digits.isEmpty then none else some (-(Int.ofNat (digitsToNat digits)))
  else
    let digits := s.data.takeWhile Char.isDigit
    if digits.isEmpty then none else some (Int.ofNat (digitsToNat digits))

/-- Extract the invitation id from a sort key (`strings.TrimPrefix` of
`INV#`, then `Sscanf "%d"`). -/
def skInvId (sk : String) : Option Int :=
  scanLeadingInt (if ("INV#").data.isPrefixOf sk.data then ⟨sk.data.drop 4⟩ else sk)

/-- Inner loop of step 1c: mark each resolved mapping of the email as removed. -/
def removedInner (sf : StoreFailures) (org : String) (username : String) :
    List InvitationMapping → StoreState → StoreState × Nat × List String
  | [], s => (s, 0, [])
  | m :: rest, s =>
    if m.status != InvitationResolved then removedInner sf org username rest s
    else
      match skInvId m.sk with
      | none => removedInner sf org username rest s
      | some invID =>
        if sf.updStatus invID then
          let (s', n, errs) := removedInner sf org username rest s
          (s', n, ("marking invitation " ++ toString invID ++ " as removed for " ++ username
            ++ ": error") :: errs)
        else
          let (s', n, errs) := removedInner sf org username rest
            { s with records := storeUpdateStatus s.records org invID InvitationRemoved }
          (s', n + 1, errs)

/-- Step 1c: `handleRemovedMembers`. -/
def handleRemovedMembers (sf : StoreFailures) (org : String) :
    List SyncAction → StoreState → StoreState × Nat × List String
  | [], s => (s, 0, [])
  | action :: rest, s =>
    if action.type != ActionRemove || !action.executed || action.googleEmail == "" then
      handleRemovedMembers sf org rest s
    else if sf.getByEmail action.googleEmail then
      let (s', n, errs) := handleRemovedMembers sf org rest s
      (s', n, ("looking up DynamoDB record for removed member " ++ action.email
        ++ ": error") :: errs)
    else
      let mappings := storeGetByEmail s.records action.googleEmail org
      let (s1, n1, e1) := removedInner sf org action.email mappings s
      let (s2, n2, e2) := handleRemovedMembers sf org rest s1
      (s2, n1 + n2, e1 ++ e2)

/-- Inner loop of step 1d: update the role of each resolved mapping. -/
def roleInner (sf : StoreFailures) (org : String) (role : OrgRole) :
    List InvitationMapping → StoreState → StoreState × Nat × List String
  | [], s => (s, 0, [])
  | m :: rest, s =>
    if m.status != InvitationResolved then roleInner sf org role rest s
    else
      match skInvId m.sk with
      | none => roleInner sf org role rest s
      | some invID =>
        if sf.updRole invID then
          let (s', n, errs) := roleInner sf org role rest s
          (s', n, ("updating role for invitation " ++ toString invID ++ ": error") :: errs)
        else
          let (s', n, errs) := roleInner sf org role rest
            { s with records := storeUpdateRole s.records org invID role }
          (s', n + 1, errs)

/-- Step 1d: `handleRoleUpdates`. -/
def handleRoleUpdates (sf : StoreFailures) (org : String) :
    List SyncAction → StoreState → StoreState × Nat × List String
  | [], s => (s, 0, [])
  | action :: rest, s =>
    match action.targetRole with
    | none => handleRoleUpdates sf org rest s
    | some role =>
      if action.type != ActionUpdateRole || !action.executed || action.googleEmail == "" then
        handleRoleUpdates sf org rest s
      else if sf.getByEmail action.googleEmail then
        let (s', n, errs) := handleRoleUpdates sf org rest s
        (s', n, ("looking up DynamoDB record for role update " ++ action.email
          ++ ": error") :: errs)
      else
        let mappings := storeGetByEmail s.records action.googleEmail org
        let (s1, n1, e1) := roleInner sf org role mappings s
        let (s2, n2, e2) := handleRoleUpdates sf org rest s1
        (s2, n1 + n2, e1 ++ e2)

/-- Step 1e: `handleAlreadyInOrgMembers`. -/
def handleAlreadyInOrgMembers (sf : StoreFailures) (org : String) (ttlDays now : Nat) :
    List SyncAction → StoreState → StoreState × Nat × List String
  | [], s => (s, 0, [])
  | action :: rest, s =>
    if !action.alreadyInOrg || !action.executed || action.username == "" then
      handleAlreadyInOrgMembers sf org ttlDays now rest s
    else
      let email := if action.googleEmail != "" then action.googleEmail else action.email
      if sf.getByEmail email then
        let (s', n, errs) := handleAlreadyInOrgMembers sf org ttlDays now rest s
        (s', n, ("checking existing mapping for " ++ email ++ ": error") :: errs)
      else
        let existing := storeGetByEmail s.records email org
        let alreadyMapped := existing.any (fun m =>
          m.status == InvitationResolved &&
            (match m.githubLogin with
             | some l => equalFold l action.username
             | none => false))
        if alreadyMapped then handleAlreadyInOrgMembers sf org ttlDays now rest s
        else
          let mapping : InvitationMapping :=
            { pk := "ORG#" ++ org, sk := "EXISTING#" ++ action.username, email := email,
              githubLogin := some action.username, status := InvitationResolved,
              role := resolveRole action, invitedAt := now, resolvedAt := some now,
              ttl := Int.ofNat (now + ttlDays * 86400),
              gsi1pk := "EMAIL#" ++ email, gsi1sk := "ORG#" ++ org,
              gsi2pk := "ORG#" ++ org, gsi2sk := "STATUS#" ++ InvitationResolved }
          if sf.save mapping then
            let (s', n, errs) := handleAlreadyInOrgMembers sf org ttlDays now rest s
            (s', n, ("saving already-in-org mapping for " ++ email ++ ": error") :: errs)
          else
            let (s', n, errs) := handleAlreadyInOrgMembers sf org ttlDays now rest
              { s with records := recPut s.records mapping }
            (s', n + 1, errs)

/-- Loop of step 2 over the live pending invitations. -/
def resolvePendingLoop (sf : StoreFailures) (org : String) (ttlDays now : Nat) :
    List GitHubOrgMember → StoreState → StoreState × Nat × List String
  | [], s => (s, 0, [])
  | invite :: rest, s =>
    match invite.invitationID, invite.username with
    | some invID, some uname =>
      if uname == "" then resolvePendingLoop sf org ttlDays now rest s
      else if sf.get invID then
        let (s', n, errs) := resolvePendingLoop sf org ttlDays now rest s
        (s', n, ("getting invitation " ++ toString invID ++ ": error") :: errs)
      else
        match storeGetInvitation s.records org invID with
        | none => resolvePendingLoop sf org ttlDays now rest s
        | some mapping =>
          if mapping.status != InvitationPending || mapping.githubLogin.isSome then
            resolvePendingLoop sf org ttlDays now rest s
          else if sf.resolve invID then
            let (s', n, errs) := resolvePendingLoop sf org ttlDays now rest s
            (s', n, ("resolving invitation " ++ toString invID ++ ": error") :: errs)
          else
            let (s', n, errs) := resolvePendingLoop sf org ttlDays now rest
              { s with records := storeResolve s.records org invID uname ttlDays now }
            (s', n + 1, errs)
    | _, _ => resolvePendingLoop sf org ttlDays now rest s

/-- Step 2: `resolvePendingWithLogin`. -/
def resolvePendingWithLogin (sf : StoreFailures) (client : ReconClient) (org : String)
    (ttlDays now : Nat) (s : StoreState) : StoreState × Nat × List String :=
  match client.pendingInvites with
  | .error _ => (s, 0, ["listing pending invitations: error"])
  | .ok invites => resolvePendingLoop sf org ttlDays now invites s

/-- Loop of step 3 over the audit-log entries, tracking the maximum
qualifying timestamp. -/
def auditLoop (sf : StoreFailures) (org : String) (ttlDays now : Nat) :
    List AuditLogEntry → StoreState → Int → StoreState × Nat × List String × Int
  | [], s, lastT => (s, 0, [], lastT)
  | entry :: rest, s, lastT =>
    if entry.invitationID == 0 || entry.user == "" then
      auditLoop sf org ttlDays now rest s lastT
    else
      let lastT := if entry.timestamp > lastT then entry.timestamp else lastT
      if sf.get entry.invitationID then
        let (s', n, errs, t') := auditLoop sf org ttlDays now rest s lastT
        (s', n, ("getting invitation " ++ toString entry.invitationID
          ++ " from audit log: error") :: errs, t')
      else
        match storeGetInvitation s.records org entry.invitationID with
        | none => auditLoop sf org ttlDays now rest s lastT
        | some mapping =>
          if mapping.status != InvitationPending then
            auditLoop sf org ttlDays now rest s lastT
          else if sf.resolve entry.invitationID then
            let (s', n, errs, t') := auditLoop sf org ttlDays now rest s lastT
            (s', n, ("resolving invitation " ++ toString entry.invitationID
              ++ " from audit log: error") :: errs, t')
          else
            let (s', n, errs, t') := auditLoop sf org ttlDays now rest
              { s with records := storeResolve s.records org entry.invitationID entry.user ttlDays now }
              lastT
            (s', n + 1, errs, t')

/-- Step 3: `resolveFromAuditLog`. -/
def resolveFromAuditLog (sf : StoreFailures) (client : ReconClient) (org : String)
    (ttlDays now : Nat) (s : StoreState) : StoreState × Nat × List String :=
  if sf.getCursor then (s, 0, ["getting audit log cursor: error"])
  else
    let afterTimestamp := (s.cursor.map AuditLogCursor.lastTimestamp).getD 0
    match client.auditEvents afterTimestamp with
    | .error _ => (s, 0, ["fetching audit log: error"])
    | .ok entries =>
      let (s1, n, errs, lastT) := auditLoop sf org ttlDays now entries s 0
      if lastT > 0 then
        if sf.saveCursor then (s1, n, errs ++ ["saving audit log cursor: error"])
        else
          ({ s1 with cursor := some { pk := "ORG#" ++ org, sk := "CURSOR#audit_log",
                                      lastTimestamp := lastT, lastRun := now } }, n, errs)
      else (s1, n, errs)

/-- `invitationExpiryDays`. -/
def invitationExpiryDays : Nat := 7

/-- Failure loop of step 4: mark still-pending records from the failed list. -/
def failedLoop (sf : StoreFailures) (org : String) :
    List GitHubOrgMember → StoreState →
    StoreState × Nat × List String × List (Int × InvitationStatus)
  | [], s => (s, 0, [], [])
  | invite :: rest, s =>
    match invite.invitationID with
    | none => failedLoop sf org rest s
    | some invID =>
      if sf.get invID then
        let (s', n, errs, w) := failedLoop sf org rest s
        (s', n, ("getting invitation " ++ toString invID ++ " for failure check: error") :: errs, w)
      else
        match storeGetInvitation s.records org invID with
        | none => failedLoop sf org rest s
        | some mapping =>
          if mapping.status != InvitationPending then failedLoop sf org rest s
          else if sf.updStatus invID then
            let (s', n, errs, w) := failedLoop sf org rest s
            (s', n, ("marking invitation " ++ toString invID ++ " as failed: error") :: errs, w)
          else
            let (s', n, errs, w) := failedLoop sf org rest
              { s with records := storeUpdateStatus s.records org invID InvitationFailed }
            (s', n + 1, errs, (invID, InvitationFailed) :: w)

/-- Expiry loop of step 4 over the stored pending mappings. -/
def expiryLoop (sf : StoreFailures) (org : String) (now : Nat)
    (pendingIDs failedIDs : List Int) :
    List InvitationMapping → StoreState →
    StoreState × Nat × List String × List (Int × InvitationStatus)
  | [], s => (s, 0, [], [])
  | mapping :: rest, s =>
    if now - mapping.invitedAt ≤ invitationExpiryDays * 86400 then
      expiryLoop sf org now pendingIDs failedIDs rest s
    else
      match skInvId mapping.sk with
      | none => expiryLoop sf org now pendingIDs failedIDs rest s
      | some invID =>
        if failedIDs.contains invID then expiryLoop sf org now pendingIDs failedIDs rest s
        else if pendingIDs.contains invID then expiryLoop sf org now pendingIDs failedIDs rest s
        else if sf.updStatus invID then
          let (s', n, errs, w) := expiryLoop sf org now pendingIDs failedIDs rest s
          (s', n, ("marking invitation " ++ toString invID ++ " as expired: error") :: errs, w)
        else
          let (s', n, errs, w) := expiryLoop sf org now pendingIDs failedIDs rest
            { s with records := storeUpdateStatus s.records org invID InvitationExpired }
          (s', n + 1, errs, (invID, InvitationExpired) :: w)

/-- Step 4: `handleFailedAndExpired`.  Returns
`(store, failed, expired, errors, status writes)`. -/
def handleFailedAndExpired (sf : StoreFailures) (client : ReconClient) (org : String)
    (now : Nat) (s : StoreState) :
    StoreState × Nat × Nat × List String × List (Int × InvitationStatus) :=
  let p :=
    match client.failedInvites with
    | .error _ => (([] : List GitHubOrgMember), ["listing failed invitations: error"])
    | .ok l => (l, [])
  let failedList := p.1
  let errs0 := p.2
  let (s1, failedN, errs1, w1) := failedLoop sf org failedList s
  if sf.getPending then
    (s1, failedN, 0,
     errs0 ++ errs1 ++ ["getting pending invitations for expiry check: error"], w1)
  else
    let pendingMappings := storeGetPending s1.records org
    match client.pendingInvites with
    | .error _ =>
      (s1, failedN, 0,
       errs0 ++ errs1 ++ ["listing current pending invitations for expiry check: error"], w1)
    | .ok currentPending =>
      let pendingIDs := currentPending.filterMap GitHubOrgMember.invitationID
      let failedIDs := failedList.filterMap GitHubOrgMember.invitationID
      let (s2, expiredN, errs2, w2) :=
        expiryLoop sf org now pendingIDs failedIDs pendingMappings s1
      (s2, failedN, expiredN, errs0 ++ errs1 ++ errs2, w1 ++ w2)

/-- `Reconciler.Reconcile`: the five-step pass.  The final component is the
Go `error` return value. -/
def Reconcile (sf : StoreFailures) (client : ReconClient) (cfg : ReconCfg) (now : Nat)
    (executedActions : List SyncAction) (s : StoreState) :
    ReconcileResult × StoreState × Option String :=
  let org := cfg.organization
  let r1 := saveNewInvitations sf org cfg.ttlDays now executedActions s
  let r2 := markCancelledInvitations sf org executedActions r1.1
  let r3 := handleRemovedMembers sf org executedActions r2.1
  let r4 := handleRoleUpdates sf org executedActions r3.1
  let r5 := handleAlreadyInOrgMembers sf org cfg.ttlDays now executedActions r4.1
  let r6 := resolvePendingWithLogin sf client org cfg.ttlDays now r5.1
  let r7 := resolveFromAuditLog sf client org cfg.ttlDays now r6.1
  let r8 := handleFailedAndExpired sf client org now r7.1
  ({ newInvitationsSaved := r1.2.1, resolved := r6.2.1 + r7.2.1,
     failed := r8.2.1, expired := r8.2.2.1, cancelled := r2.2.1,
     membersRemoved := r3.2.1, rolesUpdated := r4.2.1,
     alreadyInOrgResolved := r5.2.1, verifiedEmailsMapped := 0,
     errors := r1.2.2 ++ r2.2.2 ++ r3.2.2 ++ r4.2.2 ++ r5.2.2 ++ r6.2.2 ++ r7.2.2
       ++ r8.2.2.2.1 }, r8.1, none)

/-- Desired-role map of `EnsureVerifiedEmailMappings` (members first, owners
overwrite, matching `CalculateDiff`). -/
def googleRoleByEmailFor (membersGroup ownersGroup : List GoogleGroupMember) :
    List (String × OrgRole) :=
  let mp := membersGroup.foldl
    (fun mp m =>
      if m.email != "" && m.IsActive then mapInsert mp (strLower m.email) RoleMember else mp) []
  ownersGroup.foldl
    (fun mp o =>
      if o.email != "" && o.IsActive then mapInsert mp (strLower o.email) RoleOwner else mp) mp

/-- Loop of step 5 over the verified email → username hints. -/
def ensureVerifiedLoop (sf : StoreFailures) (org : String) (ttlDays now : Nat)
    (googleRoleByEmail : List (String × OrgRole)) :
    List (String × String) → StoreState → StoreState × Nat × List String
  | [], s => (s, 0, [])
  | p :: rest, s =>
    match mapFind? googleRoleByEmail (strLower p.1) with
    | none => ensureVerifiedLoop sf org ttlDays now googleRoleByEmail rest s
    | some desiredRole =>
      if sf.getByEmail p.1 then
        let (s', n, errs) := ensureVerifiedLoop sf org ttlDays now googleRoleByEmail rest s
        (s', n, ("checking existing mapping for verified email " ++ p.1 ++ ": error") :: errs)
      else
        let existing := storeGetByEmail s.records p.1 org
        let alreadyMapped := existing.any (fun m =>
          m.status == InvitationResolved && m.githubLogin.isSome)
        if alreadyMapped then ensureVerifiedLoop sf org ttlDays now googleRoleByEmail rest s
        else
          let mapping : InvitationMapping :=
            { pk := "ORG#" ++ org, sk := "EXISTING#" ++ p.2, email := p.1,
              githubLogin := some p.2, status := InvitationResolved, role := desiredRole,
              invitedAt := now, resolvedAt := some now,
              ttl := Int.ofNat (now + ttlDays * 86400),
              gsi1pk := "EMAIL#" ++ p.1, gsi1sk := "ORG#" ++ org,
              gsi2pk := "ORG#" ++ org, gsi2sk := "STATUS#" ++ InvitationResolved }
          if sf.save mapping then
            let (s', n, errs) := ensureVerifiedLoop sf org ttlDays now googleRoleByEmail rest s
            (s', n, ("saving verified email mapping for " ++ p.1 ++ ": error") :: errs)
          else
            let (s', n, errs) := ensureVerifiedLoop sf org ttlDays now googleRoleByEmail rest
              { s with records := recPut s.records mapping }
            (s', n + 1, errs)

/-- Step 5: `Reconciler.EnsureVerifiedEmailMappings` (mutates the passed
`ReconcileResult`). -/
def EnsureVerifiedEmailMappings (sf : StoreFailures) (cfg : ReconCfg) (now : Nat)
    (verifiedEmails : Option (List (String × String)))
    (membersGroup ownersGroup : List GoogleGroupMember)
    (result : ReconcileResult) (s : StoreState) : ReconcileResult × StoreState :=
  match verifiedEmails with
  | none => (result, s)
  | some ve =>
    if ve.isEmpty then (result, s)
    else
      let googleRoleByEmail := googleRoleByEmailFor membersGroup ownersGroup
      let (s', mapped, errs) :=
        ensureVerifiedLoop sf cfg.organization cfg.ttlDays now googleRoleByEmail ve s
      ({ result with verifiedEmailsMapped := result.verifiedEmailsMapped + mapped,
                     errors := result.errors ++ errs }, s')

/-- Steps 2 and 3 of the reconciliation pass in sequence: the resolution
phases driven by the live pending list and the audit trail. -/
def resolutionPhases (sf : StoreFailures) (client : ReconClient) (org : String)
    (ttlDays now : Nat) (s : StoreState) : StoreState × Nat × List String :=
  let r6 := resolvePendingWithLogin sf client org ttlDays now s
  let r7 := resolveFromAuditLog sf client org ttlDays now r6.1
  (r7.1, r6.2.1 + r7.2.1, r6.2.2 ++ r7.2.2)

/-! ### Concrete instances used by counterexamples and witnesses -/

/-- A GitHub client whose calls all fail; only reachable in live runs. -/
def idleGitHubClient : GitHubClientM :=
  { createInvitation := fun _ _ _ => .fail "error",
    searchUserByEmail := fun _ => .ok "",
    updateMemberRole := fun _ _ _ => some "error",
    removeMember := fun _ _ => some "error",
    cancelInvitation := fun _ _ => some "error" }

/-- A GitHub client reproducing the already-a-member race with one search match. -/
def upgradeClient : GitHubClientM :=
  { createInvitation := fun _ _ _ => .already,
    searchUserByEmail := fun _ => .ok "found-user",
    updateMemberRole := fun _ _ _ => none,
    removeMember := fun _ _ => some "error",
    cancelInvitation := fun _ _ => some "error" }

/-- The reconciler configuration of the concrete scenarios. -/
def cfgO : ReconCfg := { organization := "o", ttlDays := 90 }

/-- An executed invite action carrying invitation id 1. -/
def inviteActA : SyncAction :=
  { type := ActionInvite, email := "a@x.com", targetRole := some RoleMember,
    executed := true, invitationID := some 1 }

/-- A cancelled store record under key `INV#1`. -/
def cancelledRec1 : InvitationMapping :=
  { NewInvitationMapping "o" 1 "a@x.com" RoleMember 90 0 with
      status := InvitationCancelled, gsi2sk := "STATUS#" ++ InvitationCancelled }

/-- A client whose live pending list exposes the login for invitation 1. -/
def loginClient : ReconClient :=
  { pendingInvites := .ok [{ username := some "bob", invitationID := some 1,
                             isPending := true }] }

/-- A resolved record for `e@x.com` whose handle is `alice`. -/
def aliceRec : InvitationMapping :=
  { pk := "ORG#o", sk := "INV#5", email := "e@x.com", githubLogin := some "alice",
    status := InvitationResolved, role := RoleMember, invitedAt := 0, resolvedAt := some 0,
    ttl := 0, gsi1pk := "EMAIL#e@x.com", gsi1sk := "ORG#o", gsi2pk := "ORG#o",
    gsi2sk := "STATUS#" ++ InvitationResolved }

/-- An active Google member for `e@x.com`. -/
def gmE : GoogleGroupMember := { email := "e@x.com", type := "USER", status := "ACTIVE" }

/-- A pending record for invitation 3, invited at time 0. -/
def pendingRec3 : InvitationMapping := NewInvitationMapping "o" 3 "p@x.com" RoleMember 90 0

/-- A record that the status-index query for `pending` returns and whose sort
key parses to invitation id `i`: the records the expiry sweep can classify. -/
def pendWithId (org : String) (i : Int) (r : InvitationMapping) : Bool :=
  r.gsi2pk == "ORG#" ++ org && r.gsi2sk == "STATUS#" ++ InvitationPending
    && skInvId r.sk == some i

/-- A planned owner invite for a user who turns out to be already present. -/
def actU : SyncAction :=
  { type := ActionInvite, email := "user@example.com", targetRole := some RoleOwner,
    reason := "missing in GitHub organization" }

/-- An invite already upgraded to a role update for the present user `bob`. -/
def actB : SyncAction :=
  { type := ActionUpdateRole, email := "b@x.com", username := "bob",
    targetRole := some RoleOwner, executed := true, alreadyInOrg := true }

/-- A failed store record under key `INV#2`. -/
def failedRec2 : InvitationMapping :=
  { NewInvitationMapping "o" 2 "f@x.com" RoleMember 90 0 with
      status := InvitationFailed, gsi2sk := "STATUS#" ++ InvitationFailed }

/-! ### Predicates used by the resolution-idempotence development -/

/-- A record the live-pending resolution phase can still act on:
`pending` status and no recorded login. -/
def pendingNoLogin (m : InvitationMapping) : Bool :=
  m.status == InvitationPending && m.githubLogin.isNone

/-- No record under `ORG#org / INV#k` that phase 2 (live-pending
resolution) would touch. -/
def inertAt (org : String) (k : Int) (recs : List InvitationMapping) : Prop :=
  ∀ m, storeGetInvitation recs org k = some m → pendingNoLogin m = false

/-- No pending record under `ORG#org / INV#k`: phase 3 (audit-trail
resolution) skips it. -/
def notPendingAt (org : String) (k : Int) (recs : List InvitationMapping) : Prop :=
  ∀ m, storeGetInvitation recs org k = some m →
    (m.status == InvitationPending) = false

/-- An audit entry the audit loop acts on (invitation id and user present). -/
def qualifies (e : AuditLogEntry) : Bool := !(e.invitationID == 0 || e.user == "")

/-- The cursor-timestamp fold of the audit loop; it is independent of the
store, so both passes compute it identically. -/
def auditT : List AuditLogEntry → Int → Int
  | [], lt => lt
  | e :: rest, lt =>
    if e.invitationID == 0 || e.user == "" then auditT rest lt
    else auditT rest (if e.timestamp > lt then e.timestamp else lt)

/-! ### Shared lemmas about the map and store primitives -/

theorem mapFind?_mapInsert_self {β : Type} (m : List (String × β)) (k : String) (v : β) :
    mapFind? (mapInsert m k v) k = some v := by
  induction m with
  | nil => simp [mapInsert, mapFind?]
  | cons p rest ih =>
    by_cases h : p.1 = k
    · simp [mapInsert, mapFind?, h]
    · simp [mapInsert, mapFind?, h, ih]

theorem mapFind?_mapInsert_ne {β : Type} (m : List (String × β)) (k k' : String) (v : β)
    (h : k ≠ k') : mapFind? (mapInsert m k v) k' = mapFind? m k' := by
  induction m with
  | nil => simp [mapInsert, mapFind?, h]
  | cons p rest ih =>
    by_cases hp : p.1 = k
    · simp [mapInsert, mapFind?, hp, h]
    · simp [mapInsert, mapFind?, hp, ih]

theorem recFind_recPut_self (recs : List InvitationMapping) (m : InvitationMapping) :
    recFind (recPut recs m) m.pk m.sk = some m := by
  induction recs with
  | nil => simp [recPut, recFind]
  | cons r rest ih =>
    by_cases h : (r.pk == m.pk && r.sk == m.sk) = true
    · simp [recPut, recFind, h]
    · simp [recPut, recFind, h, ih]

theorem recFind_recPut_ne (recs : List InvitationMapping) (m : InvitationMapping)
    (pk sk : String) (h : ¬(m.pk = pk ∧ m.sk = sk)) :
    recFind (recPut recs m) pk sk = recFind recs pk sk := by
  induction recs with
  | nil =>
    simp only [recPut, recFind]
    have : ¬(m.pk == pk && m.sk == sk) = true := by
      simp only [Bool.and_eq_true, beq_iff_eq]; exact h
    simp [this]
  | cons r rest ih =>
    by_cases hr : (r.pk == m.pk && r.sk == m.sk) = true
    · simp only [Bool.and_eq_true, beq_iff_eq] at hr
      have hne : ¬(m.pk == pk && m.sk == sk) = true := by
        simp only [Bool.and_eq_true, beq_iff_eq]; exact h
      have hrne : ¬(r.pk == pk && r.sk == sk) = true := by
        simp only [Bool.and_eq_true, beq_iff_eq]
        intro hc
        exact h ⟨hr.1 ▸ hc.1, hr.2 ▸ hc.2⟩
      simp [recPut, recFind, hr, hne, hrne, Bool.and_eq_true, beq_iff_eq]
    · simp only [recPut, recFind]
      rw [if_neg hr]
      simp only [recFind]
      by_cases hk : (r.pk == pk && r.sk == sk) = true
      · simp [hk]
      · simp [hk, ih]

theorem recFind_some_keys (recs : List InvitationMapping) (pk sk : String)
    (r : InvitationMapping) (h : recFind recs pk sk = some r) : r.pk = pk ∧ r.sk = sk := by
  induction recs with
  | nil => simp [recFind] at h
  | cons r0 rest ih =>
    simp only [recFind] at h
    by_cases hk : (r0.pk == pk && r0.sk == sk) = true
    · simp only [hk, if_true, Option.some.injEq] at h
      simp only [Bool.and_eq_true, beq_iff_eq] at hk
      exact h ▸ hk
    · rw [if_neg hk] at h
      exact ih h

theorem recFind_append_ne (recs : List InvitationMapping) (m : InvitationMapping)
    (pk sk : String) (h : ¬(m.pk = pk ∧ m.sk = sk)) :
    recFind (recs ++ [m]) pk sk = recFind recs pk sk := by
  induction recs with
  | nil =>
    have : ¬(m.pk == pk && m.sk == sk) = true := by
      simp only [Bool.and_eq_true, beq_iff_eq]; exact h
    simp [recFind, this]
  | cons r rest ih =>
    simp only [List.cons_append, recFind]
    by_cases hk : (r.pk == pk && r.sk == sk) = true
    · simp [hk]
    · simp [hk, ih]

theorem recFind_recUpsert_ne (recs : List InvitationMapping) (pk' sk' pk sk : String)
    (f : InvitationMapping → InvitationMapping)
    (hkeep : ∀ r, (f r).pk = r.pk ∧ (f r).sk = r.sk)
    (h : ¬(pk' = pk ∧ sk' = sk)) :
    recFind (recUpsert recs pk' sk' f) pk sk = recFind recs pk sk := by
  unfold recUpsert
  cases hfind : recFind recs pk' sk' with
  | none =>
    apply recFind_append_ne
    rw [(hkeep (blankMapping pk' sk')).1, (hkeep (blankMapping pk' sk')).2]
    simpa [blankMapping] using h
  | some r0 =>
    have hr0 := recFind_some_keys recs pk' sk' r0 hfind
    apply recFind_recPut_ne
    rw [(hkeep r0).1, (hkeep r0).2, hr0.1, hr0.2]
    exact h

theorem recFind_append_self (recs : List InvitationMapping) (m : InvitationMapping)
    (h : recFind recs m.pk m.sk = none) :
    recFind (recs ++ [m]) m.pk m.sk = some m := by
  induction recs with
  | nil => simp [recFind]
  | cons r rest ih =>
    simp only [recFind] at h
    by_cases hk : (r.pk == m.pk && r.sk == m.sk) = true
    · simp [hk] at h
    · rw [if_neg hk] at h
      simp only [List.cons_append, recFind]
      rw [if_neg hk]
      exact ih h

theorem recFind_recUpsert_self (recs : List InvitationMapping) (pk sk : String)
    (f : InvitationMapping → InvitationMapping)
    (hkeep : ∀ r, (f r).pk = r.pk ∧ (f r).sk = r.sk) :
    recFind (recUpsert recs pk sk f) pk sk
      = some (f ((recFind recs pk sk).getD (blankMapping pk sk))) := by
  unfold recUpsert
  cases hfind : recFind recs pk sk with
  | none =>
    simp only [Option.getD]
    have hb : (f (blankMapping pk sk)).pk = pk ∧ (f (blankMapping pk sk)).sk = sk := by
      rw [(hkeep _).1, (hkeep _).2]; simp [blankMapping]
    have := recFind_append_self recs (f (blankMapping pk sk)) (by rw [hb.1, hb.2]; exact hfind)
    rw [hb.1, hb.2] at this
    exact this
  | some r0 =>
    have hr0 := recFind_some_keys recs pk sk r0 hfind
    have := recFind_recPut_self recs (f r0)
    rw [(hkeep r0).1, (hkeep r0).2, hr0.1, hr0.2] at this
    simpa using this

/-! ### C1 — conservative-removal soundness -/

/-- **C1** (code bug).  The claim says conservative mode never removes a target
member without a resolved mapping-store record.  The code violates this: with
DynamoDB mappings present but empty and a verified-domain-email hint
`user@company.com → ghuser`, the GitHub member `ghuser` — who has no
mapping-store record — is removed when absent from the Google groups, because
the conservative branch reads `emailByResolvedUser`, which also holds
verified-email entries.  This contradicts the code's own comments
("Only act on members we know about via DynamoDB") and `docs/sync-logic.md`. -/
theorem conservativeRemove_hits_member_without_store_record :
    CalculateDiff [] [] [{ username := some "ghuser", role := RoleMember }] [] false
        (some { resolved := [], pendingInvitations := [] })
        (some [("user@company.com", "ghuser")])
      = [{ type := ActionRemove, email := "ghuser", googleEmail := "user@company.com",
           reason := "removed from Google groups (tracked via DynamoDB)" }] := by
  rfl

/-! ### C2 — dry-run purity -/

/-- **C2** (amended).  Dry-run issues zero directory calls and returns exactly
the input actions with `executed := false`; all other fields — `error`
included — are returned unchanged (a pre-set `error` is not cleared). -/
theorem executeActions_dryRun_pure (client : GitHubClientM) (org : String)
    (actions : List SyncAction) (now : Nat) :
    ExecuteActions client org actions true now
      = (actions.map (fun a => { a with executed := false }), []) := by
  induction actions with
  | nil => rfl
  | cons a rest ih => simp [ExecuteActions, execOneAction, ih]

/-- **C2** counterexample.  The claim as stated requires every returned action
to have `error` unset; an input action that already carries an error is
returned with that error still attached, so the claim fails. -/
theorem executeActions_dryRun_keeps_error :
    ((ExecuteActions idleGitHubClient "org" [{ type := ActionSkip, error := some "boom" }]
        true 0).1.all (fun a => a.error == none)) = false := by
  rfl

/-! ### C10 — Reconcile never returns a hard error -/

/-- **C10**.  For every action list, every store-failure oracle and every
client behaviour — including all lookups and writes failing — `Reconcile`
returns a nil Go error, and its `errors` field is exactly the concatenation of
the error lists reported by the eight phases: failures accumulate and never
abort the call. -/
theorem reconcile_error_always_nil (sf : StoreFailures) (client : ReconClient)
    (cfg : ReconCfg) (now : Nat) (actions : List SyncAction) (s : StoreState) :
    (Reconcile sf client cfg now actions s).2.2 = none ∧
    (Reconcile sf client cfg now actions s).1.errors
      = ((saveNewInvitations sf cfg.organization cfg.ttlDays now actions s).2.2
        ++ (markCancelledInvitations sf cfg.organization actions
              (saveNewInvitations sf cfg.organization cfg.ttlDays now actions s).1).2.2
        ++ (handleRemovedMembers sf cfg.organization actions
              (markCancelledInvitations sf cfg.organization actions
                (saveNewInvitations sf cfg.organization cfg.ttlDays now actions s).1).1).2.2
        ++ (handleRoleUpdates sf cfg.organization actions
              (handleRemovedMembers sf cfg.organization actions
                (markCancelledInvitations sf cfg.organization actions
                  (saveNewInvitations sf cfg.organization cfg.ttlDays now actions s).1).1).1).2.2
        ++ (handleAlreadyInOrgMembers sf cfg.organization cfg.ttlDays now actions
              (handleRoleUpdates sf cfg.organization actions
                (handleRemovedMembers sf cfg.organization actions
                  (markCancelledInvitations sf cfg.organization actions
                    (saveNewInvitations sf cfg.organization cfg.ttlDays now actions s).1).1).1).1).2.2
        ++ (resolvePendingWithLogin sf client cfg.organization cfg.ttlDays now
              (handleAlreadyInOrgMembers sf cfg.organization cfg.ttlDays now actions
                (handleRoleUpdates sf cfg.organization actions
                  (handleRemovedMembers sf cfg.organization actions
                    (markCancelledInvitations sf cfg.organization actions
                      (saveNewInvitations sf cfg.organization cfg.ttlDays now actions s).1).1).1).1).1).2.2
        ++ (resolveFromAuditLog sf client cfg.organization cfg.ttlDays now
              (resolvePendingWithLogin sf client cfg.organization cfg.ttlDays now
                (handleAlreadyInOrgMembers sf cfg.organization cfg.ttlDays now actions
                  (handleRoleUpdates sf cfg.organization actions
                    (handleRemovedMembers sf cfg.organization actions
                      (markCancelledInvitations sf cfg.organization actions
                        (saveNewInvitations sf cfg.organization cfg.ttlDays now actions s).1).1).1).1).1).1).2.2
        ++ (handleFailedAndExpired sf client cfg.organization now
              (resolveFromAuditLog sf client cfg.organization cfg.ttlDays now
                (resolvePendingWithLogin sf client cfg.organization cfg.ttlDays now
                  (handleAlreadyInOrgMembers sf cfg.organization cfg.ttlDays now actions
                    (handleRoleUpdates sf cfg.organization actions
                      (handleRemovedMembers sf cfg.organization actions
                        (markCancelledInvitations sf cfg.organization actions
                          (saveNewInvitations sf cfg.organization cfg.ttlDays now actions s).1).1).1).1).1).1).1).2.2.2.1) := by
  exact ⟨rfl, by simp [Reconcile]⟩

/-! ### C3 — invite upgraded to role update on the already-a-member conflict -/

/-- **C3**.  When the create-invitation call is rejected with the
already-a-member conflict, the executor performs an account lookup by email,
and: with exactly one match `u` (the search yields a non-empty username) it
issues the role update against `u` and — when that update succeeds — mutates
the action in place to `updateRole`, marks it executed and already-present and
populates `username`/`googleEmail`; with zero or ambiguous matches (empty
search result) it leaves the action unexecuted, already-present, with the
conflict error attached. -/
theorem invite_conflict_upgrades_to_role_update (client : GitHubClientM) (org : String)
    (now : Nat) (a : SyncAction) (role : OrgRole)
    (ht : a.type = ActionInvite) (hr : a.targetRole = some role)
    (hc : client.createInvitation org a.email role = .already) :
    GHCall.searchUserByEmail a.email ∈ (ExecuteActions client org [a] false now).2 ∧
    (∀ u, client.searchUserByEmail a.email = .ok u → u ≠ "" →
      GHCall.updateMemberRole org u role ∈ (ExecuteActions client org [a] false now).2 ∧
      (client.updateMemberRole org u role = none →
        (ExecuteActions client org [a] false now).1
          = [{ a with type := ActionUpdateRole, executed := true, alreadyInOrg := true,
                      username := u, googleEmail := a.email,
                      reason := "invite upgraded: user already in org, role updated",
                      timestamp := some now }])) ∧
    (client.searchUserByEmail a.email = .ok "" →
      (ExecuteActions client org [a] false now).1
        = [{ a with alreadyInOrg := true, executed := false,
                    error := some (errAlreadyMemberMsg a.email) }]) := by
  have hbt : (a.type == ActionInvite) = true := by simp [ht]
  refine ⟨?_, ?_, ?_⟩
  · simp only [ExecuteActions, execOneAction, Bool.false_eq_true, if_false, hbt, if_true, hr, hc]
    cases hs : client.searchUserByEmail a.email with
    | ok u =>
      by_cases hu : (u != "") = true
      · simp only [hs, hu, if_true]
        cases client.updateMemberRole org u role <;> simp
      · simp only [hs, hu]
        simp at hu
        simp [hu]
    | error msg => simp [hs]
  · intro u hu hune
    have hut : (u != "") = true := by simpa using hune
    constructor
    · simp only [ExecuteActions, execOneAction, Bool.false_eq_true, if_false, hbt, if_true,
        hr, hc, hu, hut]
      cases client.updateMemberRole org u role <;> simp
    · intro hupd
      simp only [ExecuteActions, execOneAction, Bool.false_eq_true, if_false, hbt, if_true,
        hr, hc, hu, hut, hupd]
  · intro hs
    simp [ExecuteActions, execOneAction, hbt, hr, hc, hs]

/-- **C3** witness: the hypotheses hold at `upgradeClient` / `actU`, and the
theorem's conclusions evaluate there — the search is issued, the role update
for `found-user` is issued, and the returned action is the in-place upgrade. -/
theorem invite_conflict_upgrades_to_role_update_witness :
    (actU.type = ActionInvite ∧ actU.targetRole = some RoleOwner ∧
      upgradeClient.createInvitation "example-org" actU.email RoleOwner = .already) ∧
    (GHCall.searchUserByEmail actU.email
        ∈ (ExecuteActions upgradeClient "example-org" [actU] false 7).2 ∧
      (∀ u, upgradeClient.searchUserByEmail actU.email = .ok u → u ≠ "" →
        GHCall.updateMemberRole "example-org" u RoleOwner
            ∈ (ExecuteActions upgradeClient "example-org" [actU] false 7).2 ∧
        (upgradeClient.updateMemberRole "example-org" u RoleOwner = none →
          (ExecuteActions upgradeClient "example-org" [actU] false 7).1
            = [{ actU with type := ActionUpdateRole, executed := true,
                           alreadyInOrg := true, username := u, googleEmail := actU.email,
                           reason := "invite upgraded: user already in org, role updated",
                           timestamp := some 7 }])) ∧
      (upgradeClient.searchUserByEmail actU.email = .ok "" →
        (ExecuteActions upgradeClient "example-org" [actU] false 7).1
          = [{ actU with alreadyInOrg := true, executed := false,
                         error := some (errAlreadyMemberMsg actU.email) }])) :=
  ⟨⟨rfl, rfl, rfl⟩,
   invite_conflict_upgrades_to_role_update upgradeClient "example-org" 7 actU RoleOwner
     rfl rfl rfl⟩

/-! ### C8 — elevated-group role precedence -/

theorem foldInsert_lookup_none {β : Type} (g : GoogleGroupMember → Bool)
    (v : GoogleGroupMember → β) (l : List GoogleGroupMember)
    (mp0 : List (String × β)) (key : String)
    (h : ∀ x ∈ l, ¬(g x = true ∧ strLower x.email = key)) :
    mapFind?
        (l.foldl (fun mp x => if g x then mapInsert mp (strLower x.email) (v x) else mp) mp0)
        key
      = mapFind? mp0 key := by
  induction l generalizing mp0 with
  | nil => rfl
  | cons x rest ih =>
    simp only [List.foldl_cons]
    by_cases hg : g x = true
    · have hne : strLower x.email ≠ key := by
        intro hk
        exact h x (by simp) ⟨hg, hk⟩
      rw [ih _ (fun y hy => h y (by simp [hy]))]
      simp only [hg, if_true]
      exact mapFind?_mapInsert_ne _ _ _ _ hne
    · simp only [eq_false_of_ne_true hg, if_false]
      exact ih _ (fun y hy => h y (by simp [hy]))

theorem foldInsert_lookup_mem {β : Type} (g : GoogleGroupMember → Bool)
    (v : GoogleGroupMember → β) (l : List GoogleGroupMember)
    (mp0 : List (String × β)) (key : String)
    (h : ∃ x ∈ l, g x = true ∧ strLower x.email = key) :
    ∃ x, x ∈ l ∧ g x = true ∧ strLower x.email = key ∧
      mapFind?
          (l.foldl (fun mp x => if g x then mapInsert mp (strLower x.email) (v x) else mp) mp0)
          key
        = some (v x) := by
  induction l generalizing mp0 with
  | nil => simp at h
  | cons x rest ih =>
    simp only [List.foldl_cons]
    by_cases hrest : ∃ y ∈ rest, g y = true ∧ strLower y.email = key
    · obtain ⟨y, hy, hgy, hky, hlook⟩ :=
        ih (if g x then mapInsert mp0 (strLower x.email) (v x) else mp0) hrest
      refine ⟨y, by simp [hy], hgy, hky, ?_⟩
      cases hgx : g x <;> simp only [hgx] at hlook ⊢ <;> simpa using hlook
    · obtain ⟨z, hz, hgz, hkz⟩ := h
      rcases List.mem_cons.mp hz with hzx | hzr
      · subst hzx
        refine ⟨z, by simp, hgz, hkz, ?_⟩
        rw [foldInsert_lookup_none g v rest _ key (by
          intro y hy hc
          exact hrest ⟨y, hy, hc⟩)]
        simp only [hgz, if_true, hkz]
        exact mapFind?_mapInsert_self _ _ _
      · exact absurd ⟨z, hzr, hgz, hkz⟩ hrest

/-- **C8**.  For an email that is active in both the base (members) and the
elevated (owners) source group, the desired-role map of `CalculateDiff`
(`roleByEmailFor`) and the desired-role map of the proactive verified-email
pass (`googleRoleByEmailFor`) both give the elevated role `admin`, and this is
invariant under any reordering (permutation) of either input list. -/
theorem role_precedence_owner_wins (ms os ms2 os2 : List GoogleGroupMember) (e : String)
    (hm : ∃ m ∈ ms, m.email ≠ "" ∧ m.IsActive = true ∧ strLower m.email = strLower e)
    (ho : ∃ o ∈ os, o.email ≠ "" ∧ o.IsActive = true ∧ strLower o.email = strLower e)
    (hpm : ms2.Perm ms) (hpo : os2.Perm os) :
    ((∃ ent, mapFind? (roleByEmailFor ms os) (strLower e) = some ent ∧ ent.2 = RoleOwner) ∧
      mapFind? (googleRoleByEmailFor ms os) (strLower e) = some RoleOwner) ∧
    ((∃ ent, mapFind? (roleByEmailFor ms2 os2) (strLower e) = some ent ∧ ent.2 = RoleOwner) ∧
      mapFind? (googleRoleByEmailFor ms2 os2) (strLower e) = some RoleOwner) := by
  have main : ∀ (ms' os' : List GoogleGroupMember),
      (∃ o ∈ os', o.email ≠ "" ∧ o.IsActive = true ∧ strLower o.email = strLower e) →
      (∃ ent, mapFind? (roleByEmailFor ms' os') (strLower e) = some ent ∧ ent.2 = RoleOwner) ∧
        mapFind? (googleRoleByEmailFor ms' os') (strLower e) = some RoleOwner := by
    intro ms' os' ho'
    constructor
    · obtain ⟨x, hx, hgx, hkx, hlook⟩ :=
        foldInsert_lookup_mem (fun o => o.IsActive) (fun o => (o.email, RoleOwner)) os' _
          (strLower e) (by
            obtain ⟨o, hmem, _, hact, hkey⟩ := ho'
            exact ⟨o, hmem, hact, hkey⟩)
      exact ⟨(x.email, RoleOwner), hlook, rfl⟩
    · obtain ⟨x, hx, hgx, hkx, hlook⟩ :=
        foldInsert_lookup_mem (fun o => o.email != "" && o.IsActive)
          (fun _ => RoleOwner) os' _ (strLower e) (by
            obtain ⟨o, hmem, hne, hact, hkey⟩ := ho'
            exact ⟨o, hmem, by simp [hne, hact], hkey⟩)
      exact hlook
  have ho2 : ∃ o ∈ os2, o.email ≠ "" ∧ o.IsActive = true ∧ strLower o.email = strLower e := by
    obtain ⟨o, hmem, h1, h2, h3⟩ := ho
    exact ⟨o, hpo.mem_iff.mpr hmem, h1, h2, h3⟩
  exact ⟨main ms os ho, main ms2 os2 ho2⟩

/-- **C8** witness: a user active in both groups, with the lists given in both
orders, gets the elevated role in both desired-role maps. -/
theorem role_precedence_owner_wins_witness :
    ((∃ m ∈ [{ email := "u@x.com", type := "USER", status := "ACTIVE" },
             { email := "w@x.com", type := "USER", status := "ACTIVE" }],
        GoogleGroupMember.email m ≠ "" ∧ m.IsActive = true ∧
          strLower m.email = strLower "U@x.com") ∧
     (∃ o ∈ [{ email := "U@x.com", type := "USER", status := "ACTIVE" }],
        GoogleGroupMember.email o ≠ "" ∧ o.IsActive = true ∧
          strLower o.email = strLower "U@x.com")) ∧
    (((∃ ent, mapFind?
          (roleByEmailFor
            [{ email := "u@x.com", type := "USER", status := "ACTIVE" },
             { email := "w@x.com", type := "USER", status := "ACTIVE" }]
            [{ email := "U@x.com", type := "USER", status := "ACTIVE" }])
          (strLower "U@x.com") = some ent ∧ ent.2 = RoleOwner) ∧
      mapFind?
          (googleRoleByEmailFor
            [{ email := "u@x.com", type := "USER", status := "ACTIVE" },
             { email := "w@x.com", type := "USER", status := "ACTIVE" }]
            [{ email := "U@x.com", type := "USER", status := "ACTIVE" }])
          (strLower "U@x.com") = some RoleOwner) ∧
     ((∃ ent, mapFind?
          (roleByEmailFor
            [{ email := "w@x.com", type := "USER", status := "ACTIVE" },
             { email := "u@x.com", type := "USER", status := "ACTIVE" }]
            [{ email := "U@x.com", type := "USER", status := "ACTIVE" }])
          (strLower "U@x.com") = some ent ∧ ent.2 = RoleOwner) ∧
      mapFind?
          (googleRoleByEmailFor
            [{ email := "w@x.com", type := "USER", status := "ACTIVE" },
             { email := "u@x.com", type := "USER", status := "ACTIVE" }]
            [{ email := "U@x.com", type := "USER", status := "ACTIVE" }])
          (strLower "U@x.com") = some RoleOwner)) :=
  ⟨⟨⟨{ email := "u@x.com", type := "USER", status := "ACTIVE" }, by decide⟩,
    ⟨{ email := "U@x.com", type := "USER", status := "ACTIVE" }, by decide⟩⟩,
   role_precedence_owner_wins
     [{ email := "u@x.com", type := "USER", status := "ACTIVE" },
      { email := "w@x.com", type := "USER", status := "ACTIVE" }]
     [{ email := "U@x.com", type := "USER", status := "ACTIVE" }]
     [{ email := "w@x.com", type := "USER", status := "ACTIVE" },
      { email := "u@x.com", type := "USER", status := "ACTIVE" }]
     [{ email := "U@x.com", type := "USER", status := "ACTIVE" }]
     "U@x.com"
     ⟨{ email := "u@x.com", type := "USER", status := "ACTIVE" }, by decide⟩
     ⟨{ email := "U@x.com", type := "USER", status := "ACTIVE" }, by decide⟩
     (List.Perm.swap _ _ _) (List.Perm.refl _)⟩

/-! ### C6 — cancel actions for stale invitations -/

/-- **C6** counterexample.  The claim promises one cancel action per
invitation id, deduplicated across both sources.  Two persisted
pending-invitation hints that carry the same invitation id 7 (and no live
pending invite with that id) each produce their own cancel action, so
invitation id 7 yields two cancel actions. -/
theorem duplicate_hint_ids_yield_two_cancel_actions :
    CalculateDiff [] [] [] [] false
        (some { resolved := [], pendingInvitations := [("e1@x.com", 7), ("e2@x.com", 7)] })
        none
      = [{ type := ActionCancelInvite, email := "e1@x.com", invitationID := some 7,
           reason := "removed from Google groups, cancelling pending invitation" },
         { type := ActionCancelInvite, email := "e2@x.com", invitationID := some 7,
           reason := "removed from Google groups, cancelling pending invitation" }] := by
  rfl

/-- **C6** (amended).  With mapping hints present, the cancel actions are
exactly: one for every live pending invite that has an email and an invitation
id and whose email is not in desired state, plus one for every persisted
pending-invitation hint whose email is not in desired state and whose
invitation id does not occur among the live pending invites.  The
deduplication only suppresses hints whose id appears in the live list
(whether or not that live invite was itself cancelled); hints are not
deduplicated against each other. -/
theorem cancel_actions_membership (pendingInvites : List GitHubOrgMember)
    (em : EmailMappings) (googleSet : List String) (a : SyncAction) :
    a ∈ cancelActionsFor pendingInvites (some em) googleSet ↔
      ((∃ inv ∈ pendingInvites, ∃ e i, inv.email = some e ∧ inv.invitationID = some i ∧
          e ≠ "" ∧ googleSet.contains (strLower e) = false ∧
          a = { type := ActionCancelInvite, email := e, invitationID := some i,
                reason := "removed from Google groups, cancelling pending invitation" })
       ∨ (∃ p ∈ em.pendingInvitations, googleSet.contains (strLower p.1) = false ∧
          pendingInvites.any (fun inv => inv.invitationID == some p.2) = false ∧
          a = { type := ActionCancelInvite, email := p.1, invitationID := some p.2,
                reason := "removed from Google groups, cancelling pending invitation" })) := by
  simp only [cancelActionsFor, List.mem_append, List.mem_filterMap]
  constructor
  · rintro (⟨inv, hinv, hf⟩ | ⟨p, hp, hf⟩)
    · left
      refine ⟨inv, hinv, ?_⟩
      cases he : inv.email with
      | none => rw [he] at hf; simp at hf
      | some e =>
        cases hi : inv.invitationID with
        | none => rw [he, hi] at hf; simp at hf
        | some i =>
          rw [he, hi] at hf
          simp only [] at hf
          split_ifs at hf with h1 h2
          exact ⟨e, i, rfl, rfl, h1, eq_false_of_ne_true h2, (Option.some.inj hf).symm⟩
    · right
      refine ⟨p, hp, ?_⟩
      split_ifs at hf with h1 h2
      exact ⟨eq_false_of_ne_true h1, eq_false_of_ne_true h2, (Option.some.inj hf).symm⟩
  · rintro (⟨inv, hinv, e, i, he, hi, h1, h2, rfl⟩ | ⟨p, hp, h1, h2, rfl⟩)
    · left
      refine ⟨inv, hinv, ?_⟩
      rw [he, hi]
      simp only []
      rw [if_neg h1, if_neg (fun hc => Bool.false_ne_true (h2 ▸ hc))]
    · right
      refine ⟨p, hp, ?_⟩
      rw [if_neg (fun hc => Bool.false_ne_true (h1 ▸ hc)),
        if_neg (fun hc => Bool.false_ne_true (h2 ▸ hc))]

/-! ### C5 — check-before-write of EXISTING# resolved records -/

/-- **C5** counterexample.  The claim says the engine skips the
`EXISTING#<account>` write only when a resolved record for *that account*
already exists, by case-insensitive handle comparison.  For the verified-email
hint `e@x.com → bob`, no record with handle `bob` exists — the only resolved
record for that email has handle `alice` — yet the engine skips the write:
`EnsureVerifiedEmailMappings` checks only that *some* resolved record with a
handle exists under the email, not the handle itself. -/
theorem verified_email_check_is_not_by_handle :
    ([aliceRec].all (fun r =>
        match r.githubLogin with
        | some l => !equalFold l "bob"
        | none => true)) = true ∧
    EnsureVerifiedEmailMappings noFailures cfgO 100 (some [("e@x.com", "bob")]) [gmE] []
        {} { records := [aliceRec] }
      = ({}, { records := [aliceRec] }) := by
  exact ⟨rfl, rfl⟩

/-- **C5** (amended).  Both writers of `EXISTING#<account>` resolved records
check-before-write, but the check is scoped to the records stored under the
action's email: `handleAlreadyInOrgMembers` skips if and only if one of those
records is resolved with a case-insensitively matching handle, while
`EnsureVerifiedEmailMappings` skips if and only if one of those records is
resolved with any handle at all.  Records for the same handle stored under a
different email are not consulted. -/
theorem existing_record_check_scoped_to_email :
    (∀ (org : String) (ttlDays now : Nat) (a : SyncAction) (s : StoreState),
      a.alreadyInOrg = true → a.executed = true → a.username ≠ "" →
      ((storeGetByEmail s.records (if a.googleEmail != "" then a.googleEmail else a.email)
          org).any (fun m => m.status == InvitationResolved &&
            (match m.githubLogin with
             | some l => equalFold l a.username
             | none => false)) = true →
        handleAlreadyInOrgMembers noFailures org ttlDays now [a] s = (s, 0, [])) ∧
      ((storeGetByEmail s.records (if a.googleEmail != "" then a.googleEmail else a.email)
          org).any (fun m => m.status == InvitationResolved &&
            (match m.githubLogin with
             | some l => equalFold l a.username
             | none => false)) = false →
        handleAlreadyInOrgMembers noFailures org ttlDays now [a] s
          = ({ s with records :=
                        recPut s.records
                          { pk := "ORG#" ++ org, sk := "EXISTING#" ++ a.username,
                            email := if a.googleEmail != "" then a.googleEmail else a.email,
                            githubLogin := some a.username, status := InvitationResolved,
                            role := resolveRole a, invitedAt := now, resolvedAt := some now,
                            ttl := Int.ofNat (now + ttlDays * 86400),
                            gsi1pk := "EMAIL#"
                              ++ (if a.googleEmail != "" then a.googleEmail else a.email),
                            gsi1sk := "ORG#" ++ org, gsi2pk := "ORG#" ++ org,
                            gsi2sk := "STATUS#" ++ InvitationResolved } }, 1, []))) ∧
    (∀ (org : String) (ttlDays now : Nat) (gr : List (String × OrgRole)) (e u : String)
        (s : StoreState) (role : OrgRole),
      mapFind? gr (strLower e) = some role →
      ((storeGetByEmail s.records e org).any (fun m =>
          m.status == InvitationResolved && m.githubLogin.isSome) = true →
        ensureVerifiedLoop noFailures org ttlDays now gr [(e, u)] s = (s, 0, [])) ∧
      ((storeGetByEmail s.records e org).any (fun m =>
          m.status == InvitationResolved && m.githubLogin.isSome) = false →
        ensureVerifiedLoop noFailures org ttlDays now gr [(e, u)] s
          = ({ s with records :=
                        recPut s.records
                          { pk := "ORG#" ++ org, sk := "EXISTING#" ++ u, email := e,
                            githubLogin := some u, status := InvitationResolved,
                            role := role, invitedAt := now, resolvedAt := some now,
                            ttl := Int.ofNat (now + ttlDays * 86400),
                            gsi1pk := "EMAIL#" ++ e, gsi1sk := "ORG#" ++ org,
                            gsi2pk := "ORG#" ++ org,
                            gsi2sk := "STATUS#" ++ InvitationResolved } }, 1, []))) := by
  constructor
  · intro org ttlDays now a s ha hx hu
    have hg : (!a.alreadyInOrg || !a.executed || a.username == "") = false := by
      simp [ha, hx, hu]
    constructor
    · intro hany
      simp only [handleAlreadyInOrgMembers, hg, Bool.false_eq_true, if_false, noFailures,
        hany, if_true]
    · intro hany
      simp only [handleAlreadyInOrgMembers, hg, Bool.false_eq_true, if_false, noFailures,
        hany]
  · intro org ttlDays now gr e u s role hrole
    constructor
    · intro hany
      simp [ensureVerifiedLoop, hrole, noFailures, hany]
    · intro hany
      simp [ensureVerifiedLoop, hrole, noFailures, hany]

/-- **C5** witness: with an empty store (so no resolved record under either
email) both writers perform the `EXISTING#` write exactly once. -/
theorem existing_record_check_scoped_to_email_witness :
    handleAlreadyInOrgMembers noFailures "o" 90 5 [actB] { records := [] }
      = ({ records := recPut []
            { pk := "ORG#o", sk := "EXISTING#bob", email := "b@x.com",
              githubLogin := some "bob", status := InvitationResolved,
              role := RoleOwner, invitedAt := 5, resolvedAt := some 5,
              ttl := Int.ofNat (5 + 90 * 86400),
              gsi1pk := "EMAIL#b@x.com", gsi1sk := "ORG#o", gsi2pk := "ORG#o",
              gsi2sk := "STATUS#" ++ InvitationResolved } }, 1, []) ∧
    ensureVerifiedLoop noFailures "o" 90 5 [("e@x.com", RoleMember)] [("e@x.com", "bob")]
        { records := [] }
      = ({ records := recPut []
            { pk := "ORG#o", sk := "EXISTING#bob", email := "e@x.com",
              githubLogin := some "bob", status := InvitationResolved,
              role := RoleMember, invitedAt := 5, resolvedAt := some 5,
              ttl := Int.ofNat (5 + 90 * 86400),
              gsi1pk := "EMAIL#e@x.com", gsi1sk := "ORG#o", gsi2pk := "ORG#o",
              gsi2sk := "STATUS#" ++ InvitationResolved } }, 1, []) :=
  ⟨(existing_record_check_scoped_to_email.1 "o" 90 5 actB { records := [] }
      rfl rfl (by decide)).2 rfl,
   (existing_record_check_scoped_to_email.2 "o" 90 5 [("e@x.com", RoleMember)]
      "e@x.com" "bob" { records := [] } RoleMember rfl).2 rfl⟩


theorem recFind_mem (recs : List InvitationMapping) (pk sk : String) (r : InvitationMapping)
    (h : recFind recs pk sk = some r) : r ∈ recs := by
  induction recs with
  | nil => simp [recFind] at h
  | cons r0 rest ih =>
    simp only [recFind] at h
    by_cases hk : (r0.pk == pk && r0.sk == sk) = true
    · simp only [hk, if_true, Option.some.injEq] at h
      simp [h]
    · rw [if_neg hk] at h
      simp [ih h]

theorem filter_recPut_of_false (Q : InvitationMapping → Bool)
    (recs : List InvitationMapping) (m' : InvitationMapping)
    (hq : Q m' = false)
    (hq2 : ∀ r ∈ recs, r.pk = m'.pk ∧ r.sk = m'.sk → Q r = false) :
    (recPut recs m').filter Q = recs.filter Q := by
  induction recs with
  | nil => simp [recPut, hq]
  | cons r rest ih =>
    simp only [recPut]
    by_cases hk : (r.pk == m'.pk && r.sk == m'.sk) = true
    · have hkr : r.pk = m'.pk ∧ r.sk = m'.sk := by
        simpa [Bool.and_eq_true, beq_iff_eq] using hk
      simp [hk, List.filter_cons, hq, hq2 r (by simp) hkr]
    · rw [if_neg hk]
      simp only [List.filter_cons]
      rw [ih (fun x hx hkx => hq2 x (by simp [hx]) hkx)]

theorem filter_recPut_singleton (Q : InvitationMapping → Bool)
    (recs : List InvitationMapping) (m m' : InvitationMapping)
    (hfilter : recs.filter Q = [m])
    (hfind : recFind recs m'.pk m'.sk = some m)
    (hq : Q m' = false) :
    (recPut recs m').filter Q = [] := by
  induction recs with
  | nil => simp [recFind] at hfind
  | cons r rest ih =>
    simp only [recFind] at hfind
    simp only [recPut]
    by_cases hk : (r.pk == m'.pk && r.sk == m'.sk) = true
    · simp only [hk, if_true] at hfind ⊢
      have hrm : r = m := by simpa using hfind
      by_cases hQr : Q r = true
      · rw [List.filter_cons, if_pos (by simpa using hQr)] at hfilter
        simp only [List.cons.injEq] at hfilter
        simp [List.filter_cons, hq, hfilter.2]
      · -- r = m fails Q, but the filter of the whole list is [m]: m must be in
        -- rest with Q m = true, contradicting Q r = false
        rw [List.filter_cons, if_neg (by simpa using hQr)] at hfilter
        have hm : m ∈ rest.filter Q := by rw [hfilter]; simp
        have := (List.mem_filter.mp hm).2
        rw [← hrm] at this
        exact absurd this hQr
    · rw [if_neg hk] at hfind ⊢
      simp only [List.filter_cons] at hfilter ⊢
      by_cases hQr : Q r = true
      · rw [if_pos (by simpa using hQr)] at hfilter
        simp only [List.cons.injEq] at hfilter
        obtain ⟨hrm, hrest⟩ := hfilter
        have hmem := recFind_mem rest m'.pk m'.sk m hfind
        have hm : m ∈ rest.filter Q := List.mem_filter.mpr ⟨hmem, by rw [← hrm]; exact hQr⟩
        rw [hrest] at hm
        simp at hm
      · rw [if_neg (by simpa using hQr)] at hfilter
        rw [if_neg (by simpa using hQr)]
        exact ih hfilter hfind

theorem mem_recPut (recs : List InvitationMapping) (m' x : InvitationMapping)
    (h : x ∈ recPut recs m') : x = m' ∨ x ∈ recs := by
  induction recs with
  | nil => simp [recPut] at h; simp [h]
  | cons r rest ih =>
    simp only [recPut] at h
    by_cases hk : (r.pk == m'.pk && r.sk == m'.sk) = true
    · rw [if_pos hk] at h
      rcases List.mem_cons.mp h with h1 | h2
      · exact Or.inl h1
      · exact Or.inr (by simp [h2])
    · rw [if_neg hk] at h
      rcases List.mem_cons.mp h with h1 | h2
      · exact Or.inr (by simp [h1])
      · rcases ih h2 with h3 | h4
        · exact Or.inl h3
        · exact Or.inr (by simp [h4])

theorem storeUpdateStatus_found (recs : List InvitationMapping) (org : String) (j : Int)
    (st : InvitationStatus) (r0 : InvitationMapping)
    (hfound : recFind recs ("ORG#" ++ org) (invSK j) = some r0) :
    storeUpdateStatus recs org j st
      = recPut recs { r0 with status := st, gsi2sk := "STATUS#" ++ st } := by
  unfold storeUpdateStatus recUpsert
  rw [hfound]

theorem pendWithId_status_write_false (org : String) (i : Int) (r0 : InvitationMapping)
    (st : InvitationStatus)
    (hne : ("STATUS#" ++ st == "STATUS#" ++ InvitationPending) = false) :
    pendWithId org i { r0 with status := st, gsi2sk := "STATUS#" ++ st } = false := by
  simp only [pendWithId, hne]
  simp

theorem failedLoop_away (org : String) (i : Int) (l : List GitHubOrgMember) (s : StoreState)
    (hids : ∀ inv ∈ l, ∀ j, inv.invitationID = some j → j ≠ i ∧ invSK j ≠ invSK i)
    (hcanon : ∀ r ∈ s.records, ∀ k, skInvId r.sk = some k → r.sk = invSK k) :
    (failedLoop noFailures org l s).2.2.2.filter (fun p => p.1 == i) = [] ∧
    (failedLoop noFailures org l s).1.records.filter (pendWithId org i)
      = s.records.filter (pendWithId org i) ∧
    (∀ r ∈ (failedLoop noFailures org l s).1.records, ∀ k,
      skInvId r.sk = some k → r.sk = invSK k) := by
  induction l generalizing s with
  | nil => exact ⟨rfl, rfl, hcanon⟩
  | cons inv rest ih =>
    cases hid : inv.invitationID with
    | none =>
      simp only [failedLoop, hid]
      exact ih s (fun x hx => hids x (by simp [hx])) hcanon
    | some j =>
      obtain ⟨hji, hkey⟩ := hids inv (by simp) j hid
      simp only [failedLoop, hid, noFailures]
      simp only [Bool.false_eq_true, if_false]
      cases hfind : storeGetInvitation s.records org j with
      | none => exact ih s (fun x hx => hids x (by simp [hx])) hcanon
      | some mapping =>
        simp only []
        by_cases hstp : (mapping.status != InvitationPending) = true
        · rw [if_pos hstp]
          exact ih s (fun x hx => hids x (by simp [hx])) hcanon
        · rw [if_neg hstp]
          have hr0 := hfind
          unfold storeGetInvitation at hr0
          have hkeys := recFind_some_keys _ _ _ _ hr0
          have hput := storeUpdateStatus_found s.records org j InvitationFailed mapping hr0
          set m' : InvitationMapping :=
            { mapping with status := InvitationFailed,
                           gsi2sk := "STATUS#" ++ InvitationFailed } with hm'
          have hQm' : pendWithId org i m' = false :=
            pendWithId_status_write_false org i mapping InvitationFailed rfl
          have hq2 : ∀ r ∈ s.records, r.pk = m'.pk ∧ r.sk = m'.sk →
              pendWithId org i r = false := by
            intro r hr hk
            have hrk : r.sk = invSK j := by
              have : m'.sk = mapping.sk := rfl
              rw [hk.2, this, hkeys.2]
            by_cases hp : (skInvId r.sk == some i) = true
            · have hpi : skInvId r.sk = some i := by simpa using hp
              have := hcanon r hr i hpi
              rw [hrk] at this
              exact absurd this hkey
            · simp only [pendWithId]
              simp only [Bool.and_eq_true] at hp ⊢
              simp only [Bool.and_eq_false_iff]
              right
              simpa using hp
          have hcanon' : ∀ r ∈ (recPut s.records m'), ∀ k,
              skInvId r.sk = some k → r.sk = invSK k := by
            intro r hr k hk
            rcases mem_recPut _ _ _ hr with h1 | h2
            · subst h1
              exact hcanon mapping (recFind_mem _ _ _ _ hr0) k hk
            · exact hcanon r h2 k hk
          have step := ih { s with records := recPut s.records m' }
            (fun x hx => hids x (by simp [hx])) hcanon'
          rw [hput]
          refine ⟨?_, ?_, step.2.2⟩
          · simp only [List.filter_cons]
            have : (j == i) = false := by simpa using hji
            simp only [this]
            simpa using step.1
          · exact step.2.1.trans (filter_recPut_of_false _ _ _ hQm' hq2)

theorem failedLoop_after_write (org : String) (i : Int) (l : List GitHubOrgMember)
    (s : StoreState)
    (hids : ∀ inv ∈ l, ∀ j, inv.invitationID = some j → j = i ∨ invSK j ≠ invSK i)
    (hempty : s.records.filter (pendWithId org i) = [])
    (hati : ∀ r0, recFind s.records ("ORG#" ++ org) (invSK i) = some r0 →
      r0.status ≠ InvitationPending) :
    (failedLoop noFailures org l s).2.2.2.filter (fun p => p.1 == i) = [] ∧
    (failedLoop noFailures org l s).1.records.filter (pendWithId org i) = [] := by
  induction l generalizing s with
  | nil => exact ⟨rfl, hempty⟩
  | cons inv rest ih =>
    cases hid : inv.invitationID with
    | none =>
      simp only [failedLoop, hid]
      exact ih s (fun x hx => hids x (by simp [hx])) hempty hati
    | some j =>
      simp only [failedLoop, hid, noFailures, Bool.false_eq_true, if_false]
      cases hfind : storeGetInvitation s.records org j with
      | none => exact ih s (fun x hx => hids x (by simp [hx])) hempty hati
      | some mapping =>
        simp only []
        by_cases hstp : (mapping.status != InvitationPending) = true
        · rw [if_pos hstp]
          exact ih s (fun x hx => hids x (by simp [hx])) hempty hati
        · rw [if_neg hstp]
          -- the record at key j is pending, so j cannot be i (key i is non-pending)
          have hstpe : mapping.status = InvitationPending := by
            simpa using hstp
          have hr0 : recFind s.records ("ORG#" ++ org) (invSK j) = some mapping := hfind
          have hji : j ≠ i := by
            intro hji
            subst hji
            exact (hati mapping hr0) hstpe
          have hkey : invSK j ≠ invSK i := by
            rcases hids inv (by simp) j hid with h1 | h2
            · exact absurd h1 hji
            · exact h2
          have hkeys := recFind_some_keys _ _ _ _ hr0
          have hput := storeUpdateStatus_found s.records org j InvitationFailed mapping hr0
          set m' : InvitationMapping :=
            { mapping with status := InvitationFailed,
                           gsi2sk := "STATUS#" ++ InvitationFailed } with hm'
          have hQm' : pendWithId org i m' = false :=
            pendWithId_status_write_false org i mapping InvitationFailed rfl
          have hq2 : ∀ r ∈ s.records, r.pk = m'.pk ∧ r.sk = m'.sk →
              pendWithId org i r = false := by
            intro r hr hk
            by_cases hQr : pendWithId org i r = true
            · have : r ∈ s.records.filter (pendWithId org i) :=
                List.mem_filter.mpr ⟨hr, hQr⟩
              rw [hempty] at this
              simp at this
            · simpa using hQr
          have hempty' : (recPut s.records m').filter (pendWithId org i) = [] :=
            (filter_recPut_of_false _ _ _ hQm' hq2).trans hempty
          have hati' : ∀ r0, recFind (recPut s.records m') ("ORG#" ++ org) (invSK i)
              = some r0 → r0.status ≠ InvitationPending := by
            intro r0 hfind0
            have hne : ¬(m'.pk = "ORG#" ++ org ∧ m'.sk = invSK i) := by
              intro hc
              exact hkey (by rw [← hkeys.2]; exact hc.2)
            rw [recFind_recPut_ne s.records m' _ _ hne] at hfind0
            exact hati r0 hfind0
          have step := ih { s with records := recPut s.records m' }
            (fun x hx => hids x (by simp [hx])) hempty' hati'
          rw [hput]
          refine ⟨?_, step.2⟩
          simp only [List.filter_cons]
          have : (j == i) = false := by simpa using hji
          simp only [this]
          simpa using step.1

theorem failedLoop_hits (org : String) (i : Int) (l : List GitHubOrgMember)
    (s : StoreState) (m : InvitationMapping)
    (hids : ∀ inv ∈ l, ∀ j, inv.invitationID = some j → j = i ∨ invSK j ≠ invSK i)
    (hcanon : ∀ r ∈ s.records, ∀ k, skInvId r.sk = some k → r.sk = invSK k)
    (hfindm : recFind s.records ("ORG#" ++ org) (invSK i) = some m)
    (hst : m.status = InvitationPending)
    (hfilter : s.records.filter (pendWithId org i) = [m])
    (hhit : ∃ inv ∈ l, inv.invitationID = some i) :
    (failedLoop noFailures org l s).2.2.2.filter (fun p => p.1 == i)
      = [(i, InvitationFailed)] ∧
    (failedLoop noFailures org l s).1.records.filter (pendWithId org i) = [] := by
  induction l generalizing s with
  | nil => simp at hhit
  | cons inv rest ih =>
    cases hid : inv.invitationID with
    | none =>
      simp only [failedLoop, hid]
      have hhit' : ∃ x ∈ rest, x.invitationID = some i := by
        obtain ⟨x, hx, hxe⟩ := hhit
        rcases List.mem_cons.mp hx with h1 | h2
        · rw [h1] at hxe; rw [hid] at hxe; simp at hxe
        · exact ⟨x, h2, hxe⟩
      exact ih s (fun x hx => hids x (by simp [hx])) hcanon hfindm hfilter hhit'
    | some j =>
      simp only [failedLoop, hid, noFailures, Bool.false_eq_true, if_false]
      by_cases hji : j = i
      · subst hji
        -- the head is the hit: the store lookup finds m pending, write happens
        have hsg : storeGetInvitation s.records org j = some m := hfindm
        rw [hsg]
        simp only []
        have hstp : ¬(m.status != InvitationPending) = true := by simp [hst]
        rw [if_neg hstp]
        have hput := storeUpdateStatus_found s.records org j InvitationFailed m hfindm
        set m' : InvitationMapping :=
          { m with status := InvitationFailed,
                   gsi2sk := "STATUS#" ++ InvitationFailed } with hm'
        have hkeys := recFind_some_keys _ _ _ _ hfindm
        have hQm' : pendWithId org j m' = false :=
          pendWithId_status_write_false org j m InvitationFailed rfl
        have hempty' : (recPut s.records m').filter (pendWithId org j) = [] := by
          apply filter_recPut_singleton _ _ m _ hfilter
          · have : m'.pk = m.pk ∧ m'.sk = m.sk := ⟨rfl, rfl⟩
            rw [this.1, this.2, hkeys.1, hkeys.2]
            exact hfindm
          · exact hQm'
        have hati' : ∀ r0, recFind (recPut s.records m') ("ORG#" ++ org) (invSK j)
            = some r0 → r0.status ≠ InvitationPending := by
          intro r0 hfind0
          have hself : recFind (recPut s.records m') m'.pk m'.sk = some m' :=
            recFind_recPut_self s.records m'
          have hkm : m'.pk = "ORG#" ++ org ∧ m'.sk = invSK j := ⟨hkeys.1, hkeys.2⟩
          rw [hkm.1, hkm.2] at hself
          rw [hself] at hfind0
          have : r0 = m' := by simpa using hfind0.symm
          subst this
          simp [hm']
          intro hc
          simp [InvitationFailed, InvitationPending] at hc
        have step := failedLoop_after_write org j rest
          { s with records := recPut s.records m' }
          (fun x hx => hids x (by simp [hx])) hempty' hati'
        rw [hput]
        refine ⟨?_, step.2⟩
        simp only [List.filter_cons]
        have : (j == j) = true := by simp
        simp only [this]
        simpa using step.1
      · -- head is not the hit; it may still write at a different key
        have hkey : invSK j ≠ invSK i := by
          rcases hids inv (by simp) j hid with h1 | h2
          · exact absurd h1 hji
          · exact h2
        have hhit' : ∃ x ∈ rest, x.invitationID = some i := by
          obtain ⟨x, hx, hxe⟩ := hhit
          rcases List.mem_cons.mp hx with h1 | h2
          · rw [h1] at hxe; rw [hid] at hxe
            simp only [Option.some.injEq] at hxe
            exact absurd hxe hji
          · exact ⟨x, h2, hxe⟩
        cases hfind : storeGetInvitation s.records org j with
        | none =>
          exact ih s (fun x hx => hids x (by simp [hx])) hcanon hfindm hfilter hhit'
        | some mapping =>
          simp only []
          by_cases hstp : (mapping.status != InvitationPending) = true
          · rw [if_pos hstp]
            exact ih s (fun x hx => hids x (by simp [hx])) hcanon hfindm hfilter hhit'
          · rw [if_neg hstp]
            have hr0 : recFind s.records ("ORG#" ++ org) (invSK j) = some mapping := hfind
            have hkeys := recFind_some_keys _ _ _ _ hr0
            have hput := storeUpdateStatus_found s.records org j InvitationFailed mapping hr0
            set m' : InvitationMapping :=
              { mapping with status := InvitationFailed,
                             gsi2sk := "STATUS#" ++ InvitationFailed } with hm'
            have hQm' : pendWithId org i m' = false :=
              pendWithId_status_write_false org i mapping InvitationFailed rfl
            have hq2 : ∀ r ∈ s.records, r.pk = m'.pk ∧ r.sk = m'.sk →
                pendWithId org i r = false := by
              intro r hr hk
              have hrk : r.sk = invSK j := by
                have : m'.sk = mapping.sk := rfl
                rw [hk.2, this, hkeys.2]
              by_cases hp : (skInvId r.sk == some i) = true
              · have hpi : skInvId r.sk = some i := by simpa using hp
                have := hcanon r hr i hpi
                rw [hrk] at this
                exact absurd this hkey
              · simp only [pendWithId]
                simp only [Bool.and_eq_false_iff]
                right
                simpa using hp
            have hcanon' : ∀ r ∈ (recPut s.records m'), ∀ k,
                skInvId r.sk = some k → r.sk = invSK k := by
              intro r hr k hk
              rcases mem_recPut _ _ _ hr with h1 | h2
              · subst h1
                exact hcanon mapping (recFind_mem _ _ _ _ hr0) k hk
              · exact hcanon r h2 k hk
            have hfindm' : recFind (recPut s.records m') ("ORG#" ++ org) (invSK i)
                = some m := by
              have hne : ¬(m'.pk = "ORG#" ++ org ∧ m'.sk = invSK i) := by
                intro hc
                exact hkey (by rw [← hkeys.2]; exact hc.2)
              rw [recFind_recPut_ne s.records m' _ _ hne]
              exact hfindm
            have hfilter' : (recPut s.records m').filter (pendWithId org i) = [m] :=
              (filter_recPut_of_false _ _ _ hQm' hq2).trans hfilter
            have step := ih { s with records := recPut s.records m' }
              (fun x hx => hids x (by simp [hx])) hcanon' hfindm' hfilter' hhit'
            rw [hput]
            refine ⟨?_, step.2⟩
            simp only [List.filter_cons]
            have : (j == i) = false := by simpa using hji
            simp only [this]
            simpa using step.1

theorem expiryLoop_no_id (org : String) (now : Nat) (pendingIDs failedIDs : List Int)
    (i : Int) (pm : List InvitationMapping) (s : StoreState)
    (h : ∀ r ∈ pm, ¬(skInvId r.sk == some i) = true) :
    (expiryLoop noFailures org now pendingIDs failedIDs pm s).2.2.2.filter
      (fun p => p.1 == i) = [] := by
  induction pm generalizing s with
  | nil => rfl
  | cons r rest ih =>
    simp only [expiryLoop]
    by_cases hage : now - r.invitedAt ≤ invitationExpiryDays * 86400
    · rw [if_pos hage]
      exact ih s (fun x hx => h x (by simp [hx]))
    · rw [if_neg hage]
      cases hsk : skInvId r.sk with
      | none => exact ih s (fun x hx => h x (by simp [hx]))
      | some j =>
        simp only []
        have hji : (j == i) = false := by
          by_contra hc
          have : j = i := by simpa using (Bool.of_not_eq_false hc)
          subst this
          exact h r (by simp) (by simp [hsk])
        by_cases hf : failedIDs.contains j = true
        · rw [if_pos hf]
          exact ih s (fun x hx => h x (by simp [hx]))
        · rw [if_neg hf]
          by_cases hp : pendingIDs.contains j = true
          · rw [if_pos hp]
            exact ih s (fun x hx => h x (by simp [hx]))
          · rw [if_neg hp]
            simp only [noFailures, Bool.false_eq_true, if_false, List.filter_cons, hji]
            exact ih _ (fun x hx => h x (by simp [hx]))

theorem expiryLoop_hit (org : String) (now : Nat) (pendingIDs failedIDs : List Int)
    (i : Int) (pm : List InvitationMapping) (s : StoreState) (m : InvitationMapping)
    (hfilter : pm.filter (fun r => skInvId r.sk == some i) = [m])
    (hold : invitationExpiryDays * 86400 < now - m.invitedAt)
    (hnf : failedIDs.contains i = false)
    (hnp : pendingIDs.contains i = false) :
    (expiryLoop noFailures org now pendingIDs failedIDs pm s).2.2.2.filter
      (fun p => p.1 == i) = [(i, InvitationExpired)] := by
  induction pm generalizing s with
  | nil => simp at hfilter
  | cons r rest ih =>
    by_cases hP : (skInvId r.sk == some i) = true
    · rw [List.filter_cons, if_pos hP] at hfilter
      simp only [List.cons.injEq] at hfilter
      obtain ⟨hrm, hrest⟩ := hfilter
      have hsk : skInvId r.sk = some i := by simpa using hP
      simp only [expiryLoop]
      have hage : ¬(now - r.invitedAt ≤ invitationExpiryDays * 86400) := by
        rw [hrm]
        omega
      rw [if_neg hage, hsk]
      simp only []
      rw [if_neg (fun hc => Bool.false_ne_true (hnf ▸ hc)),
        if_neg (fun hc => Bool.false_ne_true (hnp ▸ hc))]
      simp only [noFailures, Bool.false_eq_true, if_false, List.filter_cons]
      have : (i == i) = true := by simp
      simp only [this]
      have hnone := expiryLoop_no_id org now pendingIDs failedIDs i rest
        { s with records := storeUpdateStatus s.records org i InvitationExpired }
        (by
          intro x hx
          intro hc
          have : x ∈ rest.filter (fun r => skInvId r.sk == some i) :=
            List.mem_filter.mpr ⟨hx, hc⟩
          rw [hrest] at this
          simp at this)
      simpa using hnone
    · rw [List.filter_cons, if_neg hP] at hfilter
      simp only [expiryLoop]
      by_cases hage : now - r.invitedAt ≤ invitationExpiryDays * 86400
      · rw [if_pos hage]
        exact ih s hfilter
      · rw [if_neg hage]
        cases hsk : skInvId r.sk with
        | none => exact ih s hfilter
        | some j =>
          simp only []
          have hji : (j == i) = false := by
            by_contra hc
            have hji' : j = i := by simpa using (Bool.of_not_eq_false hc)
            subst hji'
            exact hP (by simp [hsk])
          by_cases hf : failedIDs.contains j = true
          · rw [if_pos hf]
            exact ih s hfilter
          · rw [if_neg hf]
            by_cases hp : pendingIDs.contains j = true
            · rw [if_pos hp]
              exact ih s hfilter
            · rw [if_neg hp]
              simp only [noFailures, Bool.false_eq_true, if_false, List.filter_cons, hji]
              exact ih _ hfilter

theorem storeGetPending_filter_parse (recs : List InvitationMapping) (org : String) (i : Int) :
    (storeGetPending recs org).filter (fun r => skInvId r.sk == some i)
      = recs.filter (pendWithId org i) := by
  rw [storeGetPending, List.filter_filter]
  congr 1
  funext r
  simp only [pendWithId]
  cases h1 : (r.gsi2pk == "ORG#" ++ org) <;>
    cases h2 : (r.gsi2sk == "STATUS#" ++ InvitationPending) <;>
      cases h3 : (skInvId r.sk == some i) <;> rfl

/-- **C7**.  In the failure-and-expiry sweep, (a) a pending store record whose
invitation id is in neither the live pending list nor the failed list and that
is older than 7 days receives exactly one status write, to `expired`; (b) a
pending record matched by the failed list receives exactly one status write,
to `failed`, and is never also classified as expired — the failure check runs
first and removes it from the pending set the expiry scan reads. -/
theorem failure_check_precedes_expiry (org : String) (now : Nat) (s : StoreState)
    (live failedL : List GitHubOrgMember) (auditAll : List AuditLogEntry) (af : Bool)
    (m : InvitationMapping) (i : Int)
    (hcanon : ∀ r ∈ s.records, ∀ k, skInvId r.sk = some k → r.sk = invSK k)
    (hpend : s.records.filter (pendWithId org i) = [m]) :
    ((invitationExpiryDays * 86400 < now - m.invitedAt) →
     (∀ inv ∈ live, inv.invitationID ≠ some i) →
     (∀ inv ∈ failedL, ∀ j, inv.invitationID = some j → j ≠ i ∧ invSK j ≠ invSK i) →
     (handleFailedAndExpired noFailures
         { pendingInvites := .ok live, auditAll := auditAll, auditFails := af,
           failedInvites := .ok failedL } org now s).2.2.2.2.filter (fun p => p.1 == i)
       = [(i, InvitationExpired)]) ∧
    ((recFind s.records ("ORG#" ++ org) (invSK i) = some m) →
     (m.status = InvitationPending) →
     (∃ inv ∈ failedL, inv.invitationID = some i) →
     (∀ inv ∈ failedL, ∀ j, inv.invitationID = some j → j = i ∨ invSK j ≠ invSK i) →
     (handleFailedAndExpired noFailures
         { pendingInvites := .ok live, auditAll := auditAll, auditFails := af,
           failedInvites := .ok failedL } org now s).2.2.2.2.filter (fun p => p.1 == i)
       = [(i, InvitationFailed)]) := by
  constructor
  · intro hold hnl hnf
    show ((failedLoop noFailures org failedL s).2.2.2
        ++ (expiryLoop noFailures org now
              (live.filterMap GitHubOrgMember.invitationID)
              (failedL.filterMap GitHubOrgMember.invitationID)
              (storeGetPending (failedLoop noFailures org failedL s).1.records org)
              (failedLoop noFailures org failedL s).1).2.2.2).filter (fun p => p.1 == i)
      = [(i, InvitationExpired)]
    have haway := failedLoop_away org i failedL s hnf hcanon
    have hpm : (storeGetPending (failedLoop noFailures org failedL s).1.records org).filter
        (fun r => skInvId r.sk == some i) = [m] := by
      rw [storeGetPending_filter_parse, haway.2.1, hpend]
    have hnpc : (live.filterMap GitHubOrgMember.invitationID).contains i = false := by
      by_contra hc
      have hc' : i ∈ live.filterMap GitHubOrgMember.invitationID := by
        simpa using Bool.of_not_eq_false hc
      obtain ⟨inv, hmem, heq⟩ := List.mem_filterMap.mp hc'
      exact hnl inv hmem heq
    have hnfc : (failedL.filterMap GitHubOrgMember.invitationID).contains i = false := by
      by_contra hc
      have hc' : i ∈ failedL.filterMap GitHubOrgMember.invitationID := by
        simpa using Bool.of_not_eq_false hc
      obtain ⟨inv, hmem, heq⟩ := List.mem_filterMap.mp hc'
      exact (hnf inv hmem i heq).1 rfl
    have hexp := expiryLoop_hit org now
      (live.filterMap GitHubOrgMember.invitationID)
      (failedL.filterMap GitHubOrgMember.invitationID) i
      (storeGetPending (failedLoop noFailures org failedL s).1.records org)
      (failedLoop noFailures org failedL s).1 m hpm hold hnfc hnpc
    rw [List.filter_append, haway.1, hexp]
    rfl
  · intro hfindm hst hhit hids
    show ((failedLoop noFailures org failedL s).2.2.2
        ++ (expiryLoop noFailures org now
              (live.filterMap GitHubOrgMember.invitationID)
              (failedL.filterMap GitHubOrgMember.invitationID)
              (storeGetPending (failedLoop noFailures org failedL s).1.records org)
              (failedLoop noFailures org failedL s).1).2.2.2).filter (fun p => p.1 == i)
      = [(i, InvitationFailed)]
    have hhits := failedLoop_hits org i failedL s m hids hcanon hfindm hst hpend hhit
    have hpm : (storeGetPending (failedLoop noFailures org failedL s).1.records org).filter
        (fun r => skInvId r.sk == some i) = [] := by
      rw [storeGetPending_filter_parse, hhits.2]
    have hexp := expiryLoop_no_id org now
      (live.filterMap GitHubOrgMember.invitationID)
      (failedL.filterMap GitHubOrgMember.invitationID) i
      (storeGetPending (failedLoop noFailures org failedL s).1.records org)
      (failedLoop noFailures org failedL s).1
      (by
        intro x hx hc
        have : x ∈ (storeGetPending (failedLoop noFailures org failedL s).1.records
            org).filter (fun r => skInvId r.sk == some i) :=
          List.mem_filter.mpr ⟨hx, hc⟩
        rw [hpm] at this
        simp at this)
    rw [List.filter_append, hhits.1, hexp]
    rfl

/-- A failed-invitation list entry whose invitation id is 3. -/
def failedInv3 : GitHubOrgMember :=
  { email := some "p@x.com", isPending := true, invitationID := some 3 }

theorem failure_check_precedes_expiry_witness :
    (handleFailedAndExpired noFailures
        { pendingInvites := .ok [], auditAll := [], auditFails := false,
          failedInvites := .ok [] } "o" 864000
        { records := [pendingRec3] }).2.2.2.2.filter (fun p => p.1 == (3 : Int))
      = [((3 : Int), InvitationExpired)] ∧
    (handleFailedAndExpired noFailures
        { pendingInvites := .ok [], auditAll := [], auditFails := false,
          failedInvites := .ok [failedInv3] } "o" 864000
        { records := [pendingRec3] }).2.2.2.2.filter (fun p => p.1 == (3 : Int))
      = [((3 : Int), InvitationFailed)] := by
  have hcanon3 : ∀ r ∈ [pendingRec3], ∀ k, skInvId r.sk = some k → r.sk = invSK k := by
    intro r hr k hk
    have hr3 : r = pendingRec3 := by simpa using hr
    subst hr3
    have hk3 : some (3 : Int) = some k := hk
    rw [← Option.some.inj hk3]
    rfl
  refine ⟨(failure_check_precedes_expiry "o" 864000 { records := [pendingRec3] }
      [] [] [] false pendingRec3 3 hcanon3 rfl).1 (by decide) (by simp) (by simp),
    (failure_check_precedes_expiry "o" 864000 { records := [pendingRec3] }
      [] [failedInv3] [] false pendingRec3 3 hcanon3 rfl).2 rfl rfl
      ⟨failedInv3, by simp, rfl⟩ ?_⟩
  intro inv hinv j hj
  have hinv3 : inv = failedInv3 := by simpa using hinv
  subst hinv3
  have hj3 : some (3 : Int) = some j := hj
  exact Or.inl (Option.some.inj hj3).symm

/-! ### C4 — idempotence of the resolution phases -/

theorem recFind_recPut_cases (recs : List InvitationMapping) (m : InvitationMapping)
    (pk sk : String) :
    recFind (recPut recs m) pk sk = recFind recs pk sk ∨
    recFind (recPut recs m) pk sk = some m := by
  induction recs with
  | nil =>
    simp only [recPut, recFind]
    by_cases hk : (m.pk == pk && m.sk == sk) = true
    · right; rw [if_pos hk]
    · left; rw [if_neg hk]
  | cons r rest ih =>
    simp only [recPut]
    by_cases hr : (r.pk == m.pk && r.sk == m.sk) = true
    · rw [if_pos hr]
      simp only [recFind]
      by_cases hk : (m.pk == pk && m.sk == sk) = true
      · right; rw [if_pos hk]
      · left
        rw [if_neg hk]
        have hrk : ¬(r.pk == pk && r.sk == sk) = true := by
          simp only [Bool.and_eq_true, beq_iff_eq] at hr hk ⊢
          intro hc
          exact hk ⟨hr.1 ▸ hc.1, hr.2 ▸ hc.2⟩
        rw [if_neg hrk]
    · rw [if_neg hr]
      simp only [recFind]
      by_cases hk : (r.pk == pk && r.sk == sk) = true
      · left; rw [if_pos hk, if_pos hk]
      · rw [if_neg hk, if_neg hk]
        exact ih

theorem recFind_append_cases (recs : List InvitationMapping) (m : InvitationMapping)
    (pk sk : String) :
    recFind (recs ++ [m]) pk sk = recFind recs pk sk ∨
    recFind (recs ++ [m]) pk sk = some m := by
  induction recs with
  | nil =>
    simp only [List.nil_append, recFind]
    by_cases hk : (m.pk == pk && m.sk == sk) = true
    · right; rw [if_pos hk]
    · left; rw [if_neg hk]
  | cons r rest ih =>
    simp only [List.cons_append, recFind]
    by_cases hk : (r.pk == pk && r.sk == sk) = true
    · left; rw [if_pos hk, if_pos hk]
    · rw [if_neg hk, if_neg hk]
      exact ih

theorem recFind_recUpsert_cases (recs : List InvitationMapping) (pk sk : String)
    (f : InvitationMapping → InvitationMapping) (pk' sk' : String) :
    recFind (recUpsert recs pk sk f) pk' sk' = recFind recs pk' sk' ∨
    ∃ r, recFind (recUpsert recs pk sk f) pk' sk' = some (f r) := by
  unfold recUpsert
  cases hfind : recFind recs pk sk with
  | none =>
    rcases recFind_append_cases recs (f (blankMapping pk sk)) pk' sk' with h | h
    · exact Or.inl h
    · exact Or.inr ⟨blankMapping pk sk, h⟩
  | some r0 =>
    rcases recFind_recPut_cases recs (f r0) pk' sk' with h | h
    · exact Or.inl h
    · exact Or.inr ⟨r0, h⟩

theorem storeGetInvitation_storeResolve_cases (recs : List InvitationMapping)
    (org : String) (invID : Int) (u : String) (ttlDays now : Nat) (k : Int) :
    storeGetInvitation (storeResolve recs org invID u ttlDays now) org k
      = storeGetInvitation recs org k ∨
    ∃ r, storeGetInvitation (storeResolve recs org invID u ttlDays now) org k = some r ∧
      r.status = InvitationResolved ∧ r.githubLogin = some u := by
  unfold storeGetInvitation storeResolve
  rcases recFind_recUpsert_cases recs ("ORG#" ++ org) (invSK invID) _
      ("ORG#" ++ org) (invSK k) with h | ⟨r, h⟩
  · exact Or.inl h
  · exact Or.inr ⟨_, h, rfl, rfl⟩

theorem notPendingAt_resolve (org : String) (k : Int) (recs : List InvitationMapping)
    (invID : Int) (u : String) (ttlDays now : Nat) (h : notPendingAt org k recs) :
    notPendingAt org k (storeResolve recs org invID u ttlDays now) := by
  intro m hm
  have hm' : storeGetInvitation (storeResolve recs org invID u ttlDays now) org k
      = some m := hm
  rcases storeGetInvitation_storeResolve_cases recs org invID u ttlDays now k with
    hc | ⟨r, hr, hst, _⟩
  · exact h m (hc ▸ hm')
  · rw [hm'] at hr
    rw [Option.some.inj hr, hst]
    decide

theorem inertAt_of_notPendingAt (org : String) (k : Int) (recs : List InvitationMapping)
    (h : notPendingAt org k recs) : inertAt org k recs := by
  intro m hm
  have := h m hm
  simp [pendingNoLogin, this]

theorem inertAt_resolve (org : String) (k : Int) (recs : List InvitationMapping)
    (invID : Int) (u : String) (ttlDays now : Nat) (h : inertAt org k recs) :
    inertAt org k (storeResolve recs org invID u ttlDays now) := by
  intro m hm
  have hm' : storeGetInvitation (storeResolve recs org invID u ttlDays now) org k
      = some m := hm
  rcases storeGetInvitation_storeResolve_cases recs org invID u ttlDays now k with
    hc | ⟨r, hr, hst, _⟩
  · exact h m (hc ▸ hm')
  · rw [hm'] at hr
    have hres : (InvitationResolved == InvitationPending) = false := by decide
    rw [Option.some.inj hr]
    simp [pendingNoLogin, hst, hres]

theorem notPendingAt_resolve_self (org : String) (recs : List InvitationMapping)
    (invID : Int) (u : String) (ttlDays now : Nat) :
    notPendingAt org invID (storeResolve recs org invID u ttlDays now) := by
  intro m hm
  have hm' : recFind (storeResolve recs org invID u ttlDays now)
      ("ORG#" ++ org) (invSK invID) = some m := hm
  rw [storeResolve,
    recFind_recUpsert_self recs ("ORG#" ++ org) (invSK invID)
      (fun r => { r with githubLogin := some u, status := InvitationResolved,
                         resolvedAt := some now,
                         gsi2sk := "STATUS#" ++ InvitationResolved,
                         ttl := Int.ofNat (now + ttlDays * 86400) })
      (fun r => ⟨rfl, rfl⟩)] at hm'
  rw [(Option.some.inj hm').symm]
  rfl

theorem auditT_le (entries : List AuditLogEntry) (lt : Int) :
    lt ≤ auditT entries lt ∧
    ∀ e ∈ entries, qualifies e = true → e.timestamp ≤ auditT entries lt := by
  induction entries generalizing lt with
  | nil => exact ⟨le_refl _, by simp⟩
  | cons e rest ih =>
    simp only [auditT]
    by_cases hq : (e.invitationID == 0 || e.user == "") = true
    · rw [if_pos hq]
      refine ⟨(ih lt).1, ?_⟩
      intro x hx hqx
      rcases List.mem_cons.mp hx with hxe | hxr
      · subst hxe
        exact absurd hqx (by simp [qualifies, hq])
      · exact (ih lt).2 x hxr hqx
    · rw [if_neg hq]
      have hle : lt ≤ (if e.timestamp > lt then e.timestamp else lt) := by
        by_cases hgt : e.timestamp > lt
        · rw [if_pos hgt]; exact le_of_lt hgt
        · rw [if_neg hgt]
      have hte : e.timestamp ≤ (if e.timestamp > lt then e.timestamp else lt) := by
        by_cases hgt : e.timestamp > lt
        · rw [if_pos hgt]
        · rw [if_neg hgt]; exact le_of_not_lt hgt
      refine ⟨hle.trans (ih _).1, ?_⟩
      intro x hx hqx
      rcases List.mem_cons.mp hx with hxe | hxr
      · subst hxe
        exact hte.trans (ih _).1
      · exact (ih _).2 x hxr hqx

theorem auditT_src (entries : List AuditLogEntry) (lt : Int) :
    auditT entries lt = lt ∨
    ∃ e ∈ entries, qualifies e = true ∧ auditT entries lt = e.timestamp := by
  induction entries generalizing lt with
  | nil => exact Or.inl rfl
  | cons e rest ih =>
    simp only [auditT]
    by_cases hq : (e.invitationID == 0 || e.user == "") = true
    · rw [if_pos hq]
      rcases ih lt with h | ⟨x, hx, hqx, hval⟩
      · exact Or.inl h
      · exact Or.inr ⟨x, List.mem_cons_of_mem _ hx, hqx, hval⟩
    · rw [if_neg hq]
      rcases ih (if e.timestamp > lt then e.timestamp else lt) with h | ⟨x, hx, hqx, hval⟩
      · by_cases hgt : e.timestamp > lt
        · rw [if_pos hgt] at h ⊢
          exact Or.inr ⟨e, List.mem_cons_self _ _, by simp [qualifies, hq], h⟩
        · rw [if_neg hgt] at h ⊢
          exact Or.inl h
      · exact Or.inr ⟨x, List.mem_cons_of_mem _ hx, hqx, hval⟩

theorem auditT_skip (entries : List AuditLogEntry) (lt : Int)
    (h : ∀ e ∈ entries, qualifies e = false) : auditT entries lt = lt := by
  induction entries generalizing lt with
  | nil => rfl
  | cons e rest ih =>
    simp only [auditT]
    have hq : (e.invitationID == 0 || e.user == "") = true := by
      cases hb : (e.invitationID == 0 || e.user == "") with
      | true => rfl
      | false =>
        have := h e (by simp)
        simp [qualifies, hb] at this
    rw [if_pos hq]
    exact ih lt (fun x hx => h x (by simp [hx]))

theorem auditLoop_t (org : String) (ttlDays now : Nat) (entries : List AuditLogEntry)
    (s : StoreState) (lt : Int) :
    (auditLoop noFailures org ttlDays now entries s lt).2.2.2 = auditT entries lt := by
  induction entries generalizing s lt with
  | nil => rfl
  | cons e rest ih =>
    simp only [auditLoop, auditT]
    by_cases hq : (e.invitationID == 0 || e.user == "") = true
    · rw [if_pos hq, if_pos hq]
      exact ih s lt
    · rw [if_neg hq, if_neg hq]
      simp only [noFailures, Bool.false_eq_true, if_false]
      cases hfind : storeGetInvitation s.records org e.invitationID with
      | none => exact ih s _
      | some mapping =>
        simp only []
        by_cases hst : (mapping.status != InvitationPending) = true
        · rw [if_pos hst]
          exact ih s _
        · rw [if_neg hst]
          exact ih _ _

theorem auditLoop_cursor (org : String) (ttlDays now : Nat)
    (entries : List AuditLogEntry) (s : StoreState) (lt : Int) :
    (auditLoop noFailures org ttlDays now entries s lt).1.cursor = s.cursor := by
  induction entries generalizing s lt with
  | nil => rfl
  | cons e rest ih =>
    simp only [auditLoop]
    by_cases hq : (e.invitationID == 0 || e.user == "") = true
    · rw [if_pos hq]
      exact ih s lt
    · rw [if_neg hq]
      simp only [noFailures, Bool.false_eq_true, if_false]
      cases hfind : storeGetInvitation s.records org e.invitationID with
      | none => exact ih s _
      | some mapping =>
        simp only []
        by_cases hst : (mapping.status != InvitationPending) = true
        · rw [if_pos hst]
          exact ih s _
        · rw [if_neg hst]
          exact ih _ _

theorem auditLoop_inert (org : String) (ttlDays now : Nat)
    (entries : List AuditLogEntry) (s : StoreState) (lt : Int)
    (h : ∀ e ∈ entries, qualifies e = true → notPendingAt org e.invitationID s.records) :
    auditLoop noFailures org ttlDays now entries s lt = (s, 0, [], auditT entries lt) := by
  induction entries generalizing lt with
  | nil => rfl
  | cons e rest ih =>
    simp only [auditLoop, auditT]
    by_cases hq : (e.invitationID == 0 || e.user == "") = true
    · rw [if_pos hq, if_pos hq]
      exact ih lt (fun x hx hqx => h x (by simp [hx]) hqx)
    · rw [if_neg hq, if_neg hq]
      simp only [noFailures, Bool.false_eq_true, if_false]
      cases hfind : storeGetInvitation s.records org e.invitationID with
      | none => exact ih _ (fun x hx hqx => h x (by simp [hx]) hqx)
      | some mapping =>
        simp only []
        have hnp := h e (by simp) (by simp [qualifies, hq]) mapping hfind
        have hst : (mapping.status != InvitationPending) = true := by
          simp [bne, hnp]
        rw [if_pos hst]
        exact ih _ (fun x hx hqx => h x (by simp [hx]) hqx)

theorem auditLoop_post (org : String) (ttlDays now : Nat)
    (entries : List AuditLogEntry) (s : StoreState) (lt : Int) :
    (∀ k, inertAt org k s.records →
      inertAt org k (auditLoop noFailures org ttlDays now entries s lt).1.records) ∧
    (∀ k, notPendingAt org k s.records →
      notPendingAt org k (auditLoop noFailures org ttlDays now entries s lt).1.records) ∧
    (∀ e ∈ entries, qualifies e = true →
      notPendingAt org e.invitationID
        (auditLoop noFailures org ttlDays now entries s lt).1.records) := by
  induction entries generalizing s lt with
  | nil => exact ⟨fun k hk => hk, fun k hk => hk, by simp⟩
  | cons e rest ih =>
    simp only [auditLoop]
    by_cases hq : (e.invitationID == 0 || e.user == "") = true
    · rw [if_pos hq]
      refine ⟨(ih s _).1, (ih s _).2.1, ?_⟩
      intro x hx hqx
      rcases List.mem_cons.mp hx with hxe | hxr
      · subst hxe
        exact absurd hqx (by simp [qualifies, hq])
      · exact (ih s _).2.2 x hxr hqx
    · rw [if_neg hq]
      simp only [noFailures, Bool.false_eq_true, if_false]
      cases hfind : storeGetInvitation s.records org e.invitationID with
      | none =>
        refine ⟨(ih s _).1, (ih s _).2.1, ?_⟩
        intro x hx hqx
        rcases List.mem_cons.mp hx with hxe | hxr
        · subst hxe
          have hvac : notPendingAt org x.invitationID s.records := by
            intro m hm
            rw [hfind] at hm
            cases hm
          exact (ih s _).2.1 x.invitationID hvac
        · exact (ih s _).2.2 x hxr hqx
      | some mapping =>
        simp only []
        by_cases hst : (mapping.status != InvitationPending) = true
        · rw [if_pos hst]
          refine ⟨(ih s _).1, (ih s _).2.1, ?_⟩
          intro x hx hqx
          rcases List.mem_cons.mp hx with hxe | hxr
          · subst hxe
            have hsk : notPendingAt org x.invitationID s.records := by
              intro m hm
              rw [hfind] at hm
              rw [(Option.some.inj hm).symm]
              simpa [bne] using hst
            exact (ih s _).2.1 x.invitationID hsk
          · exact (ih s _).2.2 x hxr hqx
        · rw [if_neg hst]
          set s' : StoreState :=
            { s with records :=
                storeResolve s.records org e.invitationID e.user ttlDays now } with hs'
          refine ⟨?_, ?_, ?_⟩
          · intro k hk
            exact (ih s' _).1 k (inertAt_resolve org k s.records _ _ _ _ hk)
          · intro k hk
            exact (ih s' _).2.1 k (notPendingAt_resolve org k s.records _ _ _ _ hk)
          · intro x hx hqx
            rcases List.mem_cons.mp hx with hxe | hxr
            · subst hxe
              exact (ih s' _).2.1 x.invitationID
                (notPendingAt_resolve_self org s.records x.invitationID _ _ _)
            · exact (ih s' _).2.2 x hxr hqx

theorem resolvePendingLoop_inert (org : String) (ttlDays now : Nat)
    (invites : List GitHubOrgMember) (s : StoreState)
    (h : ∀ inv ∈ invites, ∀ k u, inv.invitationID = some k → inv.username = some u →
      (u == "") = false → inertAt org k s.records) :
    resolvePendingLoop noFailures org ttlDays now invites s = (s, 0, []) := by
  induction invites with
  | nil => rfl
  | cons inv rest ih =>
    cases hid : inv.invitationID with
    | none =>
      cases hu : inv.username with
      | none =>
        simp only [resolvePendingLoop, hid, hu]
        exact ih (fun x hx => h x (by simp [hx]))
      | some uname =>
        simp only [resolvePendingLoop, hid, hu]
        exact ih (fun x hx => h x (by simp [hx]))
    | some invID =>
      cases hu : inv.username with
      | none =>
        simp only [resolvePendingLoop, hid, hu]
        exact ih (fun x hx => h x (by simp [hx]))
      | some uname =>
        simp only [resolvePendingLoop, hid, hu]
        by_cases hue : (uname == "") = true
        · rw [if_pos hue]
          exact ih (fun x hx => h x (by simp [hx]))
        · rw [if_neg hue]
          simp only [noFailures, Bool.false_eq_true, if_false]
          cases hfind : storeGetInvitation s.records org invID with
          | none => exact ih (fun x hx => h x (by simp [hx]))
          | some mapping =>
            simp only []
            have hin := h inv (by simp) invID uname hid hu
              (Bool.not_eq_true _ ▸ hue) mapping hfind
            have hskip :
                (mapping.status != InvitationPending || mapping.githubLogin.isSome)
                  = true := by
              cases hlg : mapping.githubLogin with
              | none =>
                have hst : (mapping.status == InvitationPending) = false := by
                  simpa [pendingNoLogin, hlg] using hin
                simp [bne, hst]
              | some v => simp [hlg]
            rw [if_pos hskip]
            exact ih (fun x hx => h x (by simp [hx]))

theorem resolvePendingLoop_post (org : String) (ttlDays now : Nat)
    (invites : List GitHubOrgMember) (s : StoreState) :
    (∀ k, inertAt org k s.records →
      inertAt org k (resolvePendingLoop noFailures org ttlDays now invites s).1.records) ∧
    (∀ inv ∈ invites, ∀ k u, inv.invitationID = some k → inv.username = some u →
      (u == "") = false →
      inertAt org k (resolvePendingLoop noFailures org ttlDays now invites s).1.records) := by
  induction invites generalizing s with
  | nil => exact ⟨fun k hk => hk, by simp⟩
  | cons inv rest ih =>
    cases hid : inv.invitationID with
    | none =>
      cases hu : inv.username with
      | none =>
        simp only [resolvePendingLoop, hid, hu]
        refine ⟨(ih s).1, ?_⟩
        intro x hx k u hk hu' hue
        rcases List.mem_cons.mp hx with hxe | hxr
        · subst hxe
          rw [hid] at hk
          cases hk
        · exact (ih s).2 x hxr k u hk hu' hue
      | some uname =>
        simp only [resolvePendingLoop, hid, hu]
        refine ⟨(ih s).1, ?_⟩
        intro x hx k u hk hu' hue
        rcases List.mem_cons.mp hx with hxe | hxr
        · subst hxe
          rw [hid] at hk
          cases hk
        · exact (ih s).2 x hxr k u hk hu' hue
    | some invID =>
      cases hu : inv.username with
      | none =>
        simp only [resolvePendingLoop, hid, hu]
        refine ⟨(ih s).1, ?_⟩
        intro x hx k u hk hu' hue
        rcases List.mem_cons.mp hx with hxe | hxr
        · subst hxe
          rw [hu] at hu'
          cases hu'
        · exact (ih s).2 x hxr k u hk hu' hue
      | some uname =>
        simp only [resolvePendingLoop, hid, hu]
        by_cases hue0 : (uname == "") = true
        · rw [if_pos hue0]
          refine ⟨(ih s).1, ?_⟩
          intro x hx k u hk hu' hue
          rcases List.mem_cons.mp hx with hxe | hxr
          · subst hxe
            rw [hu] at hu'
            rw [hid] at hk
            rw [(Option.some.inj hu').symm] at hue
            rw [hue0] at hue
            cases hue
          · exact (ih s).2 x hxr k u hk hu' hue
        · rw [if_neg hue0]
          simp only [noFailures, Bool.false_eq_true, if_false]
          cases hfind : storeGetInvitation s.records org invID with
          | none =>
            refine ⟨(ih s).1, ?_⟩
            intro x hx k u hk hu' hue
            rcases List.mem_cons.mp hx with hxe | hxr
            · subst hxe
              rw [hid] at hk
              have hvac : inertAt org k s.records := by
                intro m hm
                rw [(Option.some.inj hk).symm] at hm
                rw [hfind] at hm
                cases hm
              exact (ih s).1 k hvac
            · exact (ih s).2 x hxr k u hk hu' hue
          | some mapping =>
            simp only []
            by_cases hskip :
                (mapping.status != InvitationPending || mapping.githubLogin.isSome)
                  = true
            · rw [if_pos hskip]
              refine ⟨(ih s).1, ?_⟩
              intro x hx k u hk hu' hue
              rcases List.mem_cons.mp hx with hxe | hxr
              · subst hxe
                rw [hid] at hk
                have hcur : inertAt org k s.records := by
                  intro m hm
                  rw [(Option.some.inj hk).symm] at hm
                  rw [hfind] at hm
                  rw [(Option.some.inj hm).symm]
                  rcases Bool.or_eq_true_iff.mp hskip with hst | hlg
                  · simp [pendingNoLogin, bne] at hst ⊢
                    intro hc
                    exact absurd hc hst
                  · cases hlgv : mapping.githubLogin with
                    | none => rw [hlgv] at hlg; cases hlg
                    | some v => simp [pendingNoLogin, hlgv]
                exact (ih s).1 k hcur
              · exact (ih s).2 x hxr k u hk hu' hue
            · rw [if_neg hskip]
              set s' : StoreState :=
                { s with records :=
                    storeResolve s.records org invID uname ttlDays now } with hs'
              refine ⟨?_, ?_⟩
              · intro k hk
                exact (ih s').1 k (inertAt_resolve org k s.records _ _ _ _ hk)
              · intro x hx k u hk hu' hue
                rcases List.mem_cons.mp hx with hxe | hxr
                · subst hxe
                  rw [hid] at hk
                  rw [(Option.some.inj hk).symm]
                  exact (ih s').1 invID
                    (inertAt_of_notPendingAt org invID _
                      (notPendingAt_resolve_self org s.records invID _ _ _))
                · exact (ih s').2 x hxr k u hk hu' hue

theorem resolveFromAuditLog_eval (client : ReconClient) (org : String)
    (ttlDays now : Nat) (s : StoreState) :
    resolveFromAuditLog noFailures client org ttlDays now s
      = if client.auditFails then (s, 0, ["fetching audit log: error"])
        else
          (fun entries =>
            (fun A =>
              if auditT entries 0 > 0 then
                ({ A.1 with cursor := some { pk := "ORG#" ++ org,
                                             sk := "CURSOR#audit_log",
                                             lastTimestamp := auditT entries 0,
                                             lastRun := now } },
                 A.2.1, A.2.2.1)
              else (A.1, A.2.1, A.2.2.1))
            (auditLoop noFailures org ttlDays now entries s 0))
          (client.auditAll.filter
            (fun e => (s.cursor.map AuditLogCursor.lastTimestamp).getD 0 < e.timestamp)) := by
  by_cases hf : client.auditFails = true
  · rw [if_pos hf]
    simp [resolveFromAuditLog, ReconClient.auditEvents, noFailures, hf]
  · have hfb : client.auditFails = false := by
      cases hcf : client.auditFails
      · rfl
      · exact absurd hcf hf
    rw [if_neg hf]
    simp only [resolveFromAuditLog, ReconClient.auditEvents,
      show noFailures.getCursor = false from rfl, Bool.false_eq_true, if_false,
      hfb]
    have heq : auditLoop noFailures org ttlDays now
        (client.auditAll.filter
          (fun e => (s.cursor.map AuditLogCursor.lastTimestamp).getD 0 < e.timestamp)) s 0
      = ((auditLoop noFailures org ttlDays now
            (client.auditAll.filter
              (fun e =>
                (s.cursor.map AuditLogCursor.lastTimestamp).getD 0 < e.timestamp)) s 0).1,
         (auditLoop noFailures org ttlDays now
            (client.auditAll.filter
              (fun e =>
                (s.cursor.map AuditLogCursor.lastTimestamp).getD 0 < e.timestamp)) s 0).2.1,
         (auditLoop noFailures org ttlDays now
            (client.auditAll.filter
              (fun e =>
                (s.cursor.map AuditLogCursor.lastTimestamp).getD 0 < e.timestamp)) s 0).2.2.1,
         (auditLoop noFailures org ttlDays now
            (client.auditAll.filter
              (fun e =>
                (s.cursor.map AuditLogCursor.lastTimestamp).getD 0 < e.timestamp)) s 0).2.2.2)
      := rfl
    rw [heq]
    simp only []
    rw [auditLoop_t]
    simp only [show noFailures.saveCursor = false from rfl, Bool.false_eq_true, if_false]

theorem resolveFromAuditLog_noop (client : ReconClient) (org : String)
    (ttlDays now : Nat) (t : StoreState)
    (h : ∀ e ∈ client.auditAll.filter
        (fun e => (t.cursor.map AuditLogCursor.lastTimestamp).getD 0 < e.timestamp),
      qualifies e = true → notPendingAt org e.invitationID t.records)
    (hT : ¬ auditT (client.auditAll.filter
        (fun e => (t.cursor.map AuditLogCursor.lastTimestamp).getD 0 < e.timestamp)) 0
          > 0) :
    resolveFromAuditLog noFailures client org ttlDays now t
      = if client.auditFails then (t, 0, ["fetching audit log: error"])
        else (t, 0, []) := by
  rw [resolveFromAuditLog_eval]
  by_cases hf : client.auditFails = true
  · rw [if_pos hf, if_pos hf]
  · rw [if_neg hf, if_neg hf]
    simp only []
    rw [auditLoop_inert org ttlDays now _ t 0 h]
    rw [if_neg hT]

theorem resolveFromAuditLog_preserves_inert (client : ReconClient) (org : String)
    (ttlDays now : Nat) (t : StoreState) (k : Int)
    (h : inertAt org k t.records) :
    inertAt org k (resolveFromAuditLog noFailures client org ttlDays now t).1.records := by
  rw [resolveFromAuditLog_eval]
  by_cases hf : client.auditFails = true
  · rw [if_pos hf]
    exact h
  · rw [if_neg hf]
    simp only []
    by_cases hl : auditT (client.auditAll.filter
        (fun e => (t.cursor.map AuditLogCursor.lastTimestamp).getD 0 < e.timestamp)) 0 > 0
    · rw [if_pos hl]
      exact (auditLoop_post org ttlDays now _ t 0).1 k h
    · rw [if_neg hl]
      exact (auditLoop_post org ttlDays now _ t 0).1 k h

theorem resolveFromAuditLog_twice (client : ReconClient) (org : String)
    (ttlDays now : Nat) (t0 : StoreState) :
    (resolveFromAuditLog noFailures client org ttlDays now
        (resolveFromAuditLog noFailures client org ttlDays now t0).1).1
      = (resolveFromAuditLog noFailures client org ttlDays now t0).1 ∧
    (resolveFromAuditLog noFailures client org ttlDays now
        (resolveFromAuditLog noFailures client org ttlDays now t0).1).2.1 = 0 := by
  by_cases hf : client.auditFails = true
  · rw [resolveFromAuditLog_eval client org ttlDays now
        (resolveFromAuditLog noFailures client org ttlDays now t0).1, if_pos hf]
    exact ⟨rfl, rfl⟩
  · rw [resolveFromAuditLog_eval client org ttlDays now t0, if_neg hf]
    simp only []
    set after1 : Int := (t0.cursor.map AuditLogCursor.lastTimestamp).getD 0 with hafter1
    set entries1 : List AuditLogEntry :=
      client.auditAll.filter (fun e => after1 < e.timestamp) with hent1
    set A := auditLoop noFailures org ttlDays now entries1 t0 0 with hA
    by_cases hl : auditT entries1 0 > 0
    · rw [if_pos hl]
      simp only []
      set cur : AuditLogCursor :=
        { pk := "ORG#" ++ org, sk := "CURSOR#audit_log",
          lastTimestamp := auditT entries1 0, lastRun := now } with hcur
      set s1 : StoreState := { records := A.1.records, cursor := some cur } with hs1
      have hnq : ∀ e ∈ client.auditAll.filter
          (fun e => auditT entries1 0 < e.timestamp), qualifies e = false := by
        intro e he
        rcases List.mem_filter.mp he with ⟨hmem, hts⟩
        have hts2 : auditT entries1 0 < e.timestamp := by simpa using hts
        cases hqv : qualifies e with
        | false => rfl
        | true =>
          exfalso
          rcases auditT_src entries1 0 with h0 | ⟨e1, he1, hq1, hval⟩
          · rw [h0] at hl
            exact absurd hl (by omega)
          · have he1m := List.mem_filter.mp (hent1 ▸ he1)
            have ht1 : after1 < e1.timestamp := by simpa using he1m.2
            have hein : e ∈ entries1 := by
              rw [hent1]
              refine List.mem_filter.mpr ⟨hmem, ?_⟩
              simp only [decide_eq_true_eq]
              omega
            have hle := (auditT_le entries1 0).2 e hein hqv
            omega
      have hc2 : ((s1.cursor.map AuditLogCursor.lastTimestamp).getD 0)
          = auditT entries1 0 := by
        rw [hs1, hcur]
        rfl
      have hent2 : client.auditAll.filter
          (fun e => ((s1.cursor.map AuditLogCursor.lastTimestamp).getD 0) < e.timestamp)
          = client.auditAll.filter (fun e => auditT entries1 0 < e.timestamp) := by
        rw [hc2]
      have h2 : ∀ e ∈ client.auditAll.filter
          (fun e => ((s1.cursor.map AuditLogCursor.lastTimestamp).getD 0) < e.timestamp),
          qualifies e = true → notPendingAt org e.invitationID s1.records := by
        intro e he hq
        rw [hent2] at he
        exact absurd (hnq e he) (by simp [hq])
      have hT2 : ¬ auditT (client.auditAll.filter
          (fun e => ((s1.cursor.map AuditLogCursor.lastTimestamp).getD 0)
            < e.timestamp)) 0 > 0 := by
        rw [hent2, auditT_skip _ _ hnq]
        omega
      have hrun2 : resolveFromAuditLog noFailures client org ttlDays now s1
          = (s1, 0, []) := by
        rw [resolveFromAuditLog_noop client org ttlDays now s1 h2 hT2, if_neg hf]
      rw [hrun2]
      exact ⟨rfl, rfl⟩
    · rw [if_neg hl]
      simp only []
      have hcur1 : A.1.cursor = t0.cursor := by
        rw [hA]
        exact auditLoop_cursor org ttlDays now entries1 t0 0
      have hc2 : ((A.1.cursor.map AuditLogCursor.lastTimestamp).getD 0) = after1 := by
        rw [hcur1, hafter1]
      have hent2 : client.auditAll.filter
          (fun e => ((A.1.cursor.map AuditLogCursor.lastTimestamp).getD 0) < e.timestamp)
          = entries1 := by
        rw [hc2, hent1]
      have h2 : ∀ e ∈ client.auditAll.filter
          (fun e => ((A.1.cursor.map AuditLogCursor.lastTimestamp).getD 0) < e.timestamp),
          qualifies e = true → notPendingAt org e.invitationID A.1.records := by
        intro e he hq
        rw [hent2] at he
        have hep := (auditLoop_post org ttlDays now entries1 t0 0).2.2 e he hq
        rw [← hA] at hep
        exact hep
      have hT2 : ¬ auditT (client.auditAll.filter
          (fun e => ((A.1.cursor.map AuditLogCursor.lastTimestamp).getD 0)
            < e.timestamp)) 0 > 0 := by
        rw [hent2]
        exact hl
      have hrun2 : resolveFromAuditLog noFailures client org ttlDays now A.1
          = (A.1, 0, []) := by
        rw [resolveFromAuditLog_noop client org ttlDays now A.1 h2 hT2, if_neg hf]
      rw [hrun2]
      exact ⟨rfl, rfl⟩

/-- **C4** (amended).  The resolution phases of the reconciliation pass —
step 2 (live-pending-list resolution) and step 3 (audit-trail resolution) —
are idempotent: re-running them against unchanged external state (same
pending list, audit events, store contents after the first pass) leaves the
store untouched and resolves zero records, because a record that is already
`resolved` is never re-resolved.  The full `Reconcile` pass is *not*
idempotent as claimed: `saveNewInvitations` unconditionally re-saves the
executed invite actions it is given, which resets their records to
`pending` and bumps the counters again (see the counterexample). -/
theorem resolution_phases_idempotent (client : ReconClient) (org : String)
    (ttlDays now : Nat) (s : StoreState) :
    (resolutionPhases noFailures client org ttlDays now
        (resolutionPhases noFailures client org ttlDays now s).1).1
      = (resolutionPhases noFailures client org ttlDays now s).1 ∧
    (resolutionPhases noFailures client org ttlDays now
        (resolutionPhases noFailures client org ttlDays now s).1).2.1 = 0 := by
  simp only [resolutionPhases]
  rcases hpend : client.pendingInvites with err | invites
  · have hrpw : ∀ x : StoreState,
        resolvePendingWithLogin noFailures client org ttlDays now x
          = (x, 0, ["listing pending invitations: error"]) := by
      intro x
      simp only [resolvePendingWithLogin, hpend]
    simp only [hrpw]
    refine ⟨(resolveFromAuditLog_twice client org ttlDays now s).1, ?_⟩
    rw [(resolveFromAuditLog_twice client org ttlDays now s).2]
  · have hrpw1 : resolvePendingWithLogin noFailures client org ttlDays now s
        = resolvePendingLoop noFailures org ttlDays now invites s := by
      simp only [resolvePendingWithLogin, hpend]
    rw [hrpw1]
    set L := resolvePendingLoop noFailures org ttlDays now invites s with hL
    set S1 := (resolveFromAuditLog noFailures client org ttlDays now L.1).1 with hS1
    have hinert : ∀ inv ∈ invites, ∀ k u, inv.invitationID = some k →
        inv.username = some u → (u == "") = false → inertAt org k S1.records := by
      intro inv hinv k u hk hu hue
      have h1 := (resolvePendingLoop_post org ttlDays now invites s).2 inv hinv k u hk hu hue
      rw [← hL] at h1
      rw [hS1]
      exact resolveFromAuditLog_preserves_inert client org ttlDays now L.1 k h1
    have hrun2p2 : resolvePendingWithLogin noFailures client org ttlDays now S1
        = (S1, 0, []) := by
      simp only [resolvePendingWithLogin, hpend]
      exact resolvePendingLoop_inert org ttlDays now invites S1 hinert
    rw [hrun2p2]
    simp only []
    rw [hS1]
    refine ⟨(resolveFromAuditLog_twice client org ttlDays now L.1).1, ?_⟩
    rw [(resolveFromAuditLog_twice client org ttlDays now L.1).2]

/-- C4 counterexample: the claim as stated is false for the full
reconciliation pass.  Running `Reconcile` a second time with the same
executed actions and unchanged external state re-saves the invite action's
record (`saveNewInvitations` has no already-saved check, resetting the
resolved record back to `pending`) and then re-resolves it, so the second
call reports `newInvitationsSaved = 1` and `resolved = 1` instead of
leaving all counters at zero. -/
theorem reconcile_second_run_changes_counters :
    (Reconcile noFailures loginClient cfgO 1000 [inviteActA]
        (Reconcile noFailures loginClient cfgO 1000 [inviteActA]
          { records := [] }).2.1).1.newInvitationsSaved = 1 ∧
    (Reconcile noFailures loginClient cfgO 1000 [inviteActA]
        (Reconcile noFailures loginClient cfgO 1000 [inviteActA]
          { records := [] }).2.1).1.resolved = 1 :=
  ⟨rfl, rfl⟩

/-! ### C9 — monotonicity of resolution -/

theorem recFind_recUpsert_cases2 (recs : List InvitationMapping) (pk sk : String)
    (f : InvitationMapping → InvitationMapping) (pk' sk' : String) :
    recFind (recUpsert recs pk sk f) pk' sk' = recFind recs pk' sk' ∨
    (∃ r, recFind recs pk sk = some r ∧
      recFind (recUpsert recs pk sk f) pk' sk' = some (f r)) ∨
    recFind (recUpsert recs pk sk f) pk' sk' = some (f (blankMapping pk sk)) := by
  unfold recUpsert
  cases hfind : recFind recs pk sk with
  | none =>
    rcases recFind_append_cases recs (f (blankMapping pk sk)) pk' sk' with h | h
    · exact Or.inl h
    · exact Or.inr (Or.inr h)
  | some r0 =>
    rcases recFind_recPut_cases recs (f r0) pk' sk' with h | h
    · exact Or.inl h
    · exact Or.inr (Or.inl ⟨r0, rfl, h⟩)

theorem notPendingAt_recPut (org : String) (k : Int) (recs : List InvitationMapping)
    (w : InvitationMapping) (hw : (w.status == InvitationPending) = false)
    (h : notPendingAt org k recs) : notPendingAt org k (recPut recs w) := by
  intro m hm
  have hm' : recFind (recPut recs w) ("ORG#" ++ org) (invSK k) = some m := hm
  rcases recFind_recPut_cases recs w ("ORG#" ++ org) (invSK k) with hc | hc
  · exact h m (show recFind recs ("ORG#" ++ org) (invSK k) = some m from hc ▸ hm')
  · rw [hm'] at hc
    rw [Option.some.inj hc]
    exact hw

theorem notPendingAt_updateStatus (org : String) (k : Int)
    (recs : List InvitationMapping) (j : Int) (st : InvitationStatus)
    (hst : (st == InvitationPending) = false)
    (h : notPendingAt org k recs) :
    notPendingAt org k (storeUpdateStatus recs org j st) := by
  intro m hm
  have hm' : recFind (recUpsert recs ("ORG#" ++ org) (invSK j)
        (fun r => { r with status := st, gsi2sk := "STATUS#" ++ st }))
      ("ORG#" ++ org) (invSK k) = some m := hm
  rcases recFind_recUpsert_cases2 recs ("ORG#" ++ org) (invSK j)
      (fun r => { r with status := st, gsi2sk := "STATUS#" ++ st })
      ("ORG#" ++ org) (invSK k) with hc | ⟨r, hr, hc⟩ | hc
  · exact h m (show recFind recs ("ORG#" ++ org) (invSK k) = some m from hc ▸ hm')
  · rw [hm'] at hc
    rw [Option.some.inj hc]
    exact hst
  · rw [hm'] at hc
    rw [Option.some.inj hc]
    exact hst

theorem notPendingAt_updateRole (org : String) (k : Int)
    (recs : List InvitationMapping) (j : Int) (role : OrgRole)
    (h : notPendingAt org k recs) :
    notPendingAt org k (storeUpdateRole recs org j role) := by
  intro m hm
  have hm' : recFind (recUpsert recs ("ORG#" ++ org) (invSK j)
        (fun r => { r with role := role }))
      ("ORG#" ++ org) (invSK k) = some m := hm
  rcases recFind_recUpsert_cases2 recs ("ORG#" ++ org) (invSK j)
      (fun r => { r with role := role })
      ("ORG#" ++ org) (invSK k) with hc | ⟨r, hr, hc⟩ | hc
  · exact h m (show recFind recs ("ORG#" ++ org) (invSK k) = some m from hc ▸ hm')
  · rw [hm'] at hc
    have hmr : m = ({ r with role := role } : InvitationMapping) := Option.some.inj hc
    have hmkeys := recFind_some_keys _ _ _ _ hm'
    have hrkeys := recFind_some_keys _ _ _ _ hr
    have hsk : invSK j = invSK k := by
      rw [← hrkeys.2]
      have hms : m.sk = invSK k := hmkeys.2
      rw [hmr] at hms
      exact hms
    have hrk : recFind recs ("ORG#" ++ org) (invSK k) = some r := by
      rw [← hsk]
      exact hr
    rw [hmr]
    exact h r hrk
  · rw [hm'] at hc
    rw [Option.some.inj hc]
    exact (by decide : (("" : String) == InvitationPending) = false)

theorem saveNewInvitations_notPending (org : String) (ttlDays now : Nat)
    (actions : List SyncAction) (s : StoreState) (k : Int)
    (hkeys : ∀ a ∈ actions, ∀ j, a.invitationID = some j → a.type = ActionInvite →
      a.executed = true → invSK j ≠ invSK k)
    (h : notPendingAt org k s.records) :
    notPendingAt org k
      (saveNewInvitations noFailures org ttlDays now actions s).1.records := by
  induction actions generalizing s with
  | nil => exact h
  | cons a rest ih =>
    cases hid : a.invitationID with
    | none =>
      simp only [saveNewInvitations, hid]
      exact ih s (fun x hx => hkeys x (by simp [hx])) h
    | some j =>
      simp only [saveNewInvitations, hid]
      by_cases hguard : (a.type != ActionInvite || !a.executed) = true
      · rw [if_pos hguard]
        exact ih s (fun x hx => hkeys x (by simp [hx])) h
      · rw [if_neg hguard]
        simp only [noFailures, Bool.false_eq_true, if_false]
        have htype : a.type = ActionInvite := by
          cases ht : (a.type == ActionInvite) with
          | true => exact eq_of_beq ht
          | false =>
            exfalso
            apply hguard
            simp [bne, ht]
        have hexec : a.executed = true := by
          cases hx : a.executed with
          | true => rfl
          | false =>
            exfalso
            apply hguard
            simp [hx]
        refine ih _ (fun x hx => hkeys x (by simp [hx])) ?_
        have hne : ¬((NewInvitationMapping org j a.email (resolveRole a) ttlDays now).pk
              = "ORG#" ++ org ∧
            (NewInvitationMapping org j a.email (resolveRole a) ttlDays now).sk
              = invSK k) := by
          rintro ⟨hp, hs⟩
          exact hkeys a (by simp) j hid htype hexec hs
        intro m hm
        have hm' : recFind (recPut s.records
            (NewInvitationMapping org j a.email (resolveRole a) ttlDays now))
            ("ORG#" ++ org) (invSK k) = some m := hm
        rw [recFind_recPut_ne _ _ _ _ hne] at hm'
        exact h m hm'

theorem markCancelled_notPending (org : String) (actions : List SyncAction)
    (s : StoreState) (k : Int) (h : notPendingAt org k s.records) :
    notPendingAt org k
      (markCancelledInvitations noFailures org actions s).1.records := by
  induction actions generalizing s with
  | nil => exact h
  | cons a rest ih =>
    cases hid : a.invitationID with
    | none =>
      simp only [markCancelledInvitations, hid]
      exact ih s h
    | some j =>
      simp only [markCancelledInvitations, hid]
      by_cases hguard : (a.type != ActionCancelInvite || !a.executed) = true
      · rw [if_pos hguard]
        exact ih s h
      · rw [if_neg hguard]
        simp only [noFailures, Bool.false_eq_true, if_false]
        exact ih _
          (notPendingAt_updateStatus org k s.records j InvitationCancelled (by decide) h)

theorem removedInner_notPending (org username : String)
    (mappings : List InvitationMapping) (s : StoreState) (k : Int)
    (h : notPendingAt org k s.records) :
    notPendingAt org k
      (removedInner noFailures org username mappings s).1.records := by
  induction mappings generalizing s with
  | nil => exact h
  | cons m0 rest ih =>
    simp only [removedInner]
    by_cases hst : (m0.status != InvitationResolved) = true
    · rw [if_pos hst]
      exact ih s h
    · rw [if_neg hst]
      cases hsk : skInvId m0.sk with
      | none => exact ih s h
      | some j =>
        simp only [noFailures, Bool.false_eq_true, if_false]
        exact ih _
          (notPendingAt_updateStatus org k s.records j InvitationRemoved (by decide) h)

theorem handleRemovedMembers_notPending (org : String) (actions : List SyncAction)
    (s : StoreState) (k : Int) (h : notPendingAt org k s.records) :
    notPendingAt org k
      (handleRemovedMembers noFailures org actions s).1.records := by
  induction actions generalizing s with
  | nil => exact h
  | cons a rest ih =>
    simp only [handleRemovedMembers]
    by_cases hguard :
        (a.type != ActionRemove || !a.executed || a.googleEmail == "") = true
    · rw [if_pos hguard]
      exact ih s h
    · rw [if_neg hguard]
      simp only [noFailures, Bool.false_eq_true, if_false]
      exact ih _ (removedInner_notPending org a.email _ s k h)

theorem roleInner_notPending (org : String) (role : OrgRole)
    (mappings : List InvitationMapping) (s : StoreState) (k : Int)
    (h : notPendingAt org k s.records) :
    notPendingAt org k (roleInner noFailures org role mappings s).1.records := by
  induction mappings generalizing s with
  | nil => exact h
  | cons m0 rest ih =>
    simp only [roleInner]
    by_cases hst : (m0.status != InvitationResolved) = true
    · rw [if_pos hst]
      exact ih s h
    · rw [if_neg hst]
      cases hsk : skInvId m0.sk with
      | none => exact ih s h
      | some j =>
        simp only [noFailures, Bool.false_eq_true, if_false]
        exact ih _ (notPendingAt_updateRole org k s.records j role h)

theorem handleRoleUpdates_notPending (org : String) (actions : List SyncAction)
    (s : StoreState) (k : Int) (h : notPendingAt org k s.records) :
    notPendingAt org k
      (handleRoleUpdates noFailures org actions s).1.records := by
  induction actions generalizing s with
  | nil => exact h
  | cons a rest ih =>
    cases hrole : a.targetRole with
    | none =>
      simp only [handleRoleUpdates, hrole]
      exact ih s h
    | some role =>
      simp only [handleRoleUpdates, hrole]
      by_cases hguard :
          (a.type != ActionUpdateRole || !a.executed || a.googleEmail == "") = true
      · rw [if_pos hguard]
        exact ih s h
      · rw [if_neg hguard]
        simp only [noFailures, Bool.false_eq_true, if_false]
        exact ih _ (roleInner_notPending org role _ s k h)

theorem handleAlreadyInOrg_notPending (org : String) (ttlDays now : Nat)
    (actions : List SyncAction) (s : StoreState) (k : Int)
    (h : notPendingAt org k s.records) :
    notPendingAt org k
      (handleAlreadyInOrgMembers noFailures org ttlDays now actions s).1.records := by
  induction actions generalizing s with
  | nil => exact h
  | cons a rest ih =>
    simp only [handleAlreadyInOrgMembers]
    by_cases hguard : (!a.alreadyInOrg || !a.executed || a.username == "") = true
    · rw [if_pos hguard]
      exact ih s h
    · rw [if_neg hguard]
      simp only [noFailures, Bool.false_eq_true, if_false]
      split <;> split
      all_goals
        first
        | exact ih s h
        | exact ih _ (notPendingAt_recPut org k s.records _ rfl h)

theorem resolvePendingLoop_notPending (org : String) (ttlDays now : Nat)
    (invites : List GitHubOrgMember) (s : StoreState) (k : Int)
    (h : notPendingAt org k s.records) :
    notPendingAt org k
      (resolvePendingLoop noFailures org ttlDays now invites s).1.records := by
  induction invites generalizing s with
  | nil => exact h
  | cons inv rest ih =>
    cases hid : inv.invitationID with
    | none =>
      cases hu : inv.username with
      | none =>
        simp only [resolvePendingLoop, hid, hu]
        exact ih s h
      | some uname =>
        simp only [resolvePendingLoop, hid, hu]
        exact ih s h
    | some j =>
      cases hu : inv.username with
      | none =>
        simp only [resolvePendingLoop, hid, hu]
        exact ih s h
      | some uname =>
        simp only [resolvePendingLoop, hid, hu]
        by_cases hue : (uname == "") = true
        · rw [if_pos hue]
          exact ih s h
        · rw [if_neg hue]
          simp only [noFailures, Bool.false_eq_true, if_false]
          cases hfind : storeGetInvitation s.records org j with
          | none => exact ih s h
          | some mapping =>
            simp only []
            by_cases hskip :
                (mapping.status != InvitationPending || mapping.githubLogin.isSome)
                  = true
            · rw [if_pos hskip]
              exact ih s h
            · rw [if_neg hskip]
              exact ih _ (notPendingAt_resolve org k s.records j uname ttlDays now h)

theorem resolvePendingWithLogin_notPending (client : ReconClient) (org : String)
    (ttlDays now : Nat) (s : StoreState) (k : Int)
    (h : notPendingAt org k s.records) :
    notPendingAt org k
      (resolvePendingWithLogin noFailures client org ttlDays now s).1.records := by
  cases hp : client.pendingInvites with
  | error e =>
    simp only [resolvePendingWithLogin, hp]
    exact h
  | ok invites =>
    simp only [resolvePendingWithLogin, hp]
    exact resolvePendingLoop_notPending org ttlDays now invites s k h

theorem resolveFromAuditLog_preserves_notPending (client : ReconClient) (org : String)
    (ttlDays now : Nat) (t : StoreState) (k : Int)
    (h : notPendingAt org k t.records) :
    notPendingAt org k
      (resolveFromAuditLog noFailures client org ttlDays now t).1.records := by
  rw [resolveFromAuditLog_eval]
  by_cases hf : client.auditFails = true
  · rw [if_pos hf]
    exact h
  · rw [if_neg hf]
    simp only []
    by_cases hl : auditT (client.auditAll.filter
        (fun e => (t.cursor.map AuditLogCursor.lastTimestamp).getD 0 < e.timestamp)) 0 > 0
    · rw [if_pos hl]
      exact (auditLoop_post org ttlDays now _ t 0).2.1 k h
    · rw [if_neg hl]
      exact (auditLoop_post org ttlDays now _ t 0).2.1 k h

theorem failedLoop_notPending (org : String) (l : List GitHubOrgMember)
    (s : StoreState) (k : Int) (h : notPendingAt org k s.records) :
    notPendingAt org k (failedLoop noFailures org l s).1.records := by
  induction l generalizing s with
  | nil => exact h
  | cons inv rest ih =>
    cases hid : inv.invitationID with
    | none =>
      simp only [failedLoop, hid]
      exact ih s h
    | some j =>
      simp only [failedLoop, hid, noFailures]
      simp only [Bool.false_eq_true, if_false]
      cases hfind : storeGetInvitation s.records org j with
      | none => exact ih s h
      | some mapping =>
        simp only []
        by_cases hstp : (mapping.status != InvitationPending) = true
        · rw [if_pos hstp]
          exact ih s h
        · rw [if_neg hstp]
          exact ih _
            (notPendingAt_updateStatus org k s.records j InvitationFailed (by decide) h)

theorem expiryLoop_notPending (org : String) (now : Nat)
    (pendingIDs failedIDs : List Int) (mappings : List InvitationMapping)
    (s : StoreState) (k : Int) (h : notPendingAt org k s.records) :
    notPendingAt org k
      (expiryLoop noFailures org now pendingIDs failedIDs mappings s).1.records := by
  induction mappings generalizing s with
  | nil => exact h
  | cons m0 rest ih =>
    simp only [expiryLoop]
    by_cases hage : now - m0.invitedAt ≤ invitationExpiryDays * 86400
    · rw [if_pos hage]
      exact ih s h
    · rw [if_neg hage]
      cases hsk : skInvId m0.sk with
      | none => exact ih s h
      | some j =>
        simp only []
        by_cases hfc : failedIDs.contains j = true
        · rw [if_pos hfc]
          exact ih s h
        · rw [if_neg hfc]
          by_cases hpc : pendingIDs.contains j = true
          · rw [if_pos hpc]
            exact ih s h
          · rw [if_neg hpc]
            simp only [noFailures, Bool.false_eq_true, if_false]
            exact ih _
              (notPendingAt_updateStatus org k s.records j InvitationExpired (by decide) h)

theorem handleFailedAndExpired_notPending (client : ReconClient) (org : String)
    (now : Nat) (s : StoreState) (k : Int) (h : notPendingAt org k s.records) :
    notPendingAt org k
      (handleFailedAndExpired noFailures client org now s).1.records := by
  simp only [handleFailedAndExpired]
  cases hfi : client.failedInvites with
  | error e =>
    simp only [show noFailures.getPending = false from rfl, Bool.false_eq_true, if_false]
    cases hpi : client.pendingInvites with
    | error e2 =>
      exact failedLoop_notPending org [] s k h
    | ok cp =>
      exact expiryLoop_notPending org now _ _ _ _ k (failedLoop_notPending org [] s k h)
  | ok fl =>
    simp only [show noFailures.getPending = false from rfl, Bool.false_eq_true, if_false]
    cases hpi : client.pendingInvites with
    | error e2 =>
      exact failedLoop_notPending org fl s k h
    | ok cp =>
      exact expiryLoop_notPending org now _ _ _ _ k (failedLoop_notPending org fl s k h)

/-- **C9** (amended).  Resolution is monotonic for every operation of the
reconciliation engine *except* the unconditional re-save in
`saveNewInvitations`, and for the whole pass on fresh invites.  Part one:
cancelling, removing, role-updating, already-in-org handling, resolving
(from the live pending list and from the audit trail), failing and expiring
never write a `pending` status over any record — each of those phases
preserves "no pending record under this key" for every key, on any store and
any action list.  Part two: provided the *executed invite actions* carry
invitation ids that have no record in the store yet (the intended,
fresh-invite situation; all other actions are unconstrained), a record whose
status is `failed`, `expired`, `cancelled` or `removed` is never transitioned
back to `pending` by a full `Reconcile` pass.  Without that freshness premise
the property is false: `SaveInvitation` is a plain `PutItem` and overwrites
the old record (see the counterexample). -/
theorem reconcile_monotonic_nonpending :
    (∀ (client : ReconClient) (org : String) (ttlDays now : Nat)
        (actions : List SyncAction) (s : StoreState) (k : Int),
      notPendingAt org k s.records →
      notPendingAt org k
          (markCancelledInvitations noFailures org actions s).1.records ∧
      notPendingAt org k (handleRemovedMembers noFailures org actions s).1.records ∧
      notPendingAt org k (handleRoleUpdates noFailures org actions s).1.records ∧
      notPendingAt org k
          (handleAlreadyInOrgMembers noFailures org ttlDays now actions s).1.records ∧
      notPendingAt org k
          (resolvePendingWithLogin noFailures client org ttlDays now s).1.records ∧
      notPendingAt org k
          (resolveFromAuditLog noFailures client org ttlDays now s).1.records ∧
      notPendingAt org k
          (handleFailedAndExpired noFailures client org now s).1.records) ∧
    (∀ (client : ReconClient) (cfg : ReconCfg) (now : Nat)
        (actions : List SyncAction) (s : StoreState) (k : Int) (m : InvitationMapping),
      storeGetInvitation s.records cfg.organization k = some m →
      (m.status = InvitationFailed ∨ m.status = InvitationExpired ∨
        m.status = InvitationCancelled ∨ m.status = InvitationRemoved) →
      (∀ a ∈ actions, ∀ j, a.invitationID = some j → a.type = ActionInvite →
        a.executed = true → storeGetInvitation s.records cfg.organization j = none) →
      ∀ m', storeGetInvitation
          (Reconcile noFailures client cfg now actions s).2.1.records cfg.organization k
          = some m' → (m'.status == InvitationPending) = false) := by
  constructor
  · intro client org ttlDays now actions s k h
    exact ⟨markCancelled_notPending org actions s k h,
      handleRemovedMembers_notPending org actions s k h,
      handleRoleUpdates_notPending org actions s k h,
      handleAlreadyInOrg_notPending org ttlDays now actions s k h,
      resolvePendingWithLogin_notPending client org ttlDays now s k h,
      resolveFromAuditLog_preserves_notPending client org ttlDays now s k h,
      handleFailedAndExpired_notPending client org now s k h⟩
  · intro client cfg now actions s k m hfound hterm hfresh
    have h0 : notPendingAt cfg.organization k s.records := by
      intro m0 hm0
      rw [hfound] at hm0
      rw [← Option.some.inj hm0]
      rcases hterm with hi | hi | hi | hi <;> (rw [hi]; decide)
    have hkeys : ∀ a ∈ actions, ∀ j, a.invitationID = some j → a.type = ActionInvite →
        a.executed = true → invSK j ≠ invSK k := by
      intro a ha j hj htype hexec heq
      have hn := hfresh a ha j hj htype hexec
      rw [storeGetInvitation] at hn hfound
      rw [heq] at hn
      rw [hn] at hfound
      cases hfound
    have h1 := saveNewInvitations_notPending cfg.organization cfg.ttlDays now actions s k
      hkeys h0
    have h2 := markCancelled_notPending cfg.organization actions _ k h1
    have h3 := handleRemovedMembers_notPending cfg.organization actions _ k h2
    have h4 := handleRoleUpdates_notPending cfg.organization actions _ k h3
    have h5 := handleAlreadyInOrg_notPending cfg.organization cfg.ttlDays now actions
      _ k h4
    have h6 := resolvePendingWithLogin_notPending client cfg.organization cfg.ttlDays now
      _ k h5
    have h7 := resolveFromAuditLog_preserves_notPending client cfg.organization
      cfg.ttlDays now _ k h6
    have h8 := handleFailedAndExpired_notPending client cfg.organization now _ k h7
    exact h8

theorem reconcile_monotonic_nonpending_witness :
    (failedRec2.status == InvitationPending) = false :=
  reconcile_monotonic_nonpending.2 ({} : ReconClient) cfgO 5 [inviteActA]
    { records := [failedRec2] } 2 failedRec2 rfl (Or.inl rfl)
    (fun a ha j hj _ _ => by
      have ha2 : a = inviteActA := by simpa using ha
      subst ha2
      have hj2 : some (1 : Int) = some j := hj
      rw [← Option.some.inj hj2]
      rfl)
    failedRec2 rfl

/-- C9 counterexample: without the freshness premise the claim is false.
`SaveInvitation` is an unconditional `PutItem`: reconciling an executed
invite action whose invitation id already has a `cancelled` record
overwrites that record with a fresh `pending` one — a
cancelled-to-pending transition. -/
theorem reconcile_resaves_cancelled_invitation :
    cancelledRec1.status = InvitationCancelled ∧
    (storeGetInvitation
        (Reconcile noFailures {} cfgO 1000 [inviteActA]
          { records := [cancelledRec1] }).2.1.records "o" 1).map
      InvitationMapping.status = some InvitationPending :=
  ⟨rfl, rfl⟩
